import Mathlib

/-!
Verification of the opcode chunking engine (`src-tauri/src/chunking/`)
against its natural-language specification.

The Rust modules are shallowly embedded: SQLite tables become lists of row
structures, the process-wide connection becomes explicit state passing,
`chrono` timestamps become abstract `Nat` instants supplied by the caller,
and the `git2` working copy becomes a small explicit `GitState`.  External
collaborators that the core only consumes (tree-sitter parse trees, the
file system, git commit ids) are parameters of the embedded operations.
Machine integers (`i32`, `i64`) are embedded as `Int`/`Nat`; none of the
embedded arithmetic can overflow on the values the code produces.
-/

/-! ## Hashing (`storage.rs`: `calculate_content_hash`)

`calculate_content_hash` feeds the UTF-8 bytes of the content string to
SHA-256 (the `sha2` crate) and formats the 32 digest bytes with `{:x}`,
i.e. as lowercase hexadecimal.  SHA-256 is embedded in full, on `Nat`
with explicit reduction modulo `2^32`. -/

namespace Sha256

def mask32 (x : Nat) : Nat := x % 4294967296

def add32 (a b : Nat) : Nat := (a + b) % 4294967296

/-- 32-bit right rotation. -/
def rotr (n x : Nat) : Nat := mask32 ((x >>> n) ||| (x <<< (32 - n)))

def shr (n x : Nat) : Nat := x >>> n

/-- Bitwise complement within 32 bits. -/
def not32 (x : Nat) : Nat := 4294967295 - x

def bigSigma0 (x : Nat) : Nat := (rotr 2 x) ^^^ (rotr 13 x) ^^^ (rotr 22 x)

def bigSigma1 (x : Nat) : Nat := (rotr 6 x) ^^^ (rotr 11 x) ^^^ (rotr 25 x)

def smallSigma0 (x : Nat) : Nat := (rotr 7 x) ^^^ (rotr 18 x) ^^^ (shr 3 x)

def smallSigma1 (x : Nat) : Nat := (rotr 17 x) ^^^ (rotr 19 x) ^^^ (shr 10 x)

def ch (x y z : Nat) : Nat := (x &&& y) ^^^ ((not32 x) &&& z)

def maj (x y z : Nat) : Nat := (x &&& y) ^^^ (x &&& z) ^^^ (y &&& z)

/-- The 64 SHA-256 round constants. -/
def roundConsts : List Nat :=
  [1116352408, 1899447441, 3049323471, 3921009573, 961987163, 1508970993,
   2453635748, 2870763221, 3624381080, 310598401, 607225278, 1426881987,
   1925078388, 2162078206, 2614888103, 3248222580, 3835390401, 4022224774,
   264347078, 604807628, 770255983, 1249150122, 1555081692, 1996064986,
   2554220882, 2821834349, 2952996808, 3210313671, 3336571891, 3584528711,
   113926993, 338241895, 666307205, 773529912, 1294757372, 1396182291,
   1695183700, 1986661051, 2177026350, 2456956037, 2730485921, 2820302411,
   3259730800, 3345764771, 3516065817, 3600352804, 4094571909, 275423344,
   430227734, 506948616, 659060556, 883997877, 958139571, 1322822218,
   1537002063, 1747873779, 1955562222, 2024104815, 2227730452, 2361852424,
   2428436474, 2756734187, 3204031479, 3329325298]

/-- Working state of the compression function: eight 32-bit words. -/
structure Hs where
  a : Nat
  b : Nat
  c : Nat
  d : Nat
  e : Nat
  f : Nat
  g : Nat
  h : Nat
deriving Repr, DecidableEq

/-- Initial hash value. -/
def initHs : Hs :=
  ⟨0x6a09e667, 0xbb67ae85, 0x3c6ef372, 0xa54ff53a,
   0x510e527f, 0x9b05688c, 0x1f83d9ab, 0x5be0cd19⟩

/-- One compression round, given the round constant and schedule word. -/
def round (st : Hs) (kw : Nat × Nat) : Hs :=
  let t1 := add32 (add32 (add32 st.h (bigSigma1 st.e)) (add32 (ch st.e st.f st.g) kw.1)) kw.2
  let t2 := add32 (bigSigma0 st.a) (maj st.a st.b st.c)
  ⟨add32 t1 t2, st.a, st.b, st.c, add32 st.d t1, st.e, st.f, st.g⟩

/-- Extend the 16 block words to the 64-word message schedule. -/
def extendSchedule (w : List Nat) : Nat → List Nat
  | 0 => w
  | n + 1 =>
    let w' := extendSchedule w n
    let i := w'.length
    let get (j : Nat) : Nat := w'.getD j 0
    w' ++ [add32 (add32 (smallSigma1 (get (i - 2))) (get (i - 7)))
             (add32 (smallSigma0 (get (i - 15))) (get (i - 16)))]

/-- Four big-endian bytes to one 32-bit word. -/
def wordOfBytes (b0 b1 b2 b3 : Nat) : Nat :=
  ((b0 <<< 24) ||| (b1 <<< 16) ||| (b2 <<< 8) ||| b3)

/-- Group a byte list into big-endian 32-bit words. -/
def bytesToWords : List Nat → List Nat
  | b0 :: b1 :: b2 :: b3 :: rest => wordOfBytes b0 b1 b2 b3 :: bytesToWords rest
  | _ => []

/-- Compress one 64-byte block into the running hash value. -/
def compressBlock (hv : Hs) (block : List Nat) : Hs :=
  let w := extendSchedule (bytesToWords block) 48
  let fin := (roundConsts.zip w).foldl round hv
  ⟨add32 hv.a fin.a, add32 hv.b fin.b, add32 hv.c fin.c, add32 hv.d fin.d,
   add32 hv.e fin.e, add32 hv.f fin.f, add32 hv.g fin.g, add32 hv.h fin.h⟩

/-- Compress `n` successive 64-byte blocks of the padded message. -/
def compressCount (hv : Hs) (bs : List Nat) : Nat → Hs
  | 0 => hv
  | n + 1 => compressCount (compressBlock hv (bs.take 64)) (bs.drop 64) n

/-- Split the padded message into 64-byte blocks and compress them all
(padding makes the length a multiple of 64). -/
def compressAll (hv : Hs) (bs : List Nat) : Hs :=
  compressCount hv bs (bs.length / 64)

/-- SHA-256 padding: `0x80`, zeros to 56 mod 64, then the 64-bit bit length
big-endian. -/
def pad (msg : List Nat) : List Nat :=
  let len := msg.length
  let zeros := (64 - ((len + 9) % 64)) % 64
  let bitLen := len * 8
  msg ++ [0x80] ++ List.replicate zeros 0 ++
    [(bitLen >>> 56) % 256, (bitLen >>> 48) % 256, (bitLen >>> 40) % 256,
     (bitLen >>> 32) % 256, (bitLen >>> 24) % 256, (bitLen >>> 16) % 256,
     (bitLen >>> 8) % 256, bitLen % 256]

/-- One 32-bit word to four big-endian bytes. -/
def wordBytes (w : Nat) : List Nat :=
  [(w >>> 24) % 256, (w >>> 16) % 256, (w >>> 8) % 256, w % 256]

/-- SHA-256 digest of a byte string, as the 32 digest bytes. -/
def digest (msg : List Nat) : List Nat :=
  let hv := compressAll initHs (pad msg)
  wordBytes hv.a ++ wordBytes hv.b ++ wordBytes hv.c ++ wordBytes hv.d ++
  wordBytes hv.e ++ wordBytes hv.f ++ wordBytes hv.g ++ wordBytes hv.h

end Sha256

/-! UTF-8 encoding of a Rust `str` (`content.as_bytes()`). -/

/-- UTF-8 encoding of one Unicode scalar value. -/
def utf8Bytes (c : Nat) : List Nat :=
  if c < 0x80 then [c]
  else if c < 0x800 then
    [0xC0 ||| (c >>> 6), 0x80 ||| (c &&& 0x3F)]
  else if c < 0x10000 then
    [0xE0 ||| (c >>> 12), 0x80 ||| ((c >>> 6) &&& 0x3F), 0x80 ||| (c &&& 0x3F)]
  else
    [0xF0 ||| (c >>> 18), 0x80 ||| ((c >>> 12) &&& 0x3F),
     0x80 ||| ((c >>> 6) &&& 0x3F), 0x80 ||| (c &&& 0x3F)]

/-- The UTF-8 bytes of a string, as `str::as_bytes` yields them. -/
def strBytes (s : String) : List Nat :=
  (s.data.map (fun ch => utf8Bytes ch.toNat)).flatten

/-- One lowercase hexadecimal digit. -/
def hexDigit (n : Nat) : Char :=
  if n < 10 then Char.ofNat (48 + n) else Char.ofNat (87 + n)

/-- One byte as two lowercase hexadecimal digits (`{:x}` on a digest prints
every byte zero-padded to width two). -/
def hexByte (b : Nat) : List Char := [hexDigit (b / 16 % 16), hexDigit (b % 16)]

/-- Lowercase hexadecimal rendering of a byte string. -/
def bytesToHex (bs : List Nat) : String := String.mk (bs.map hexByte).flatten

/-- `storage.rs` `calculate_content_hash`: lowercase-hex SHA-256 of the
content's UTF-8 bytes. -/
def calculate_content_hash (content : String) : String :=
  bytesToHex (Sha256.digest (strBytes content))

/-! ## Chunk data model (`types.rs`) -/

/-- `types.rs` `ChunkType`: the closed set of chunk categories. -/
inductive ChunkType where
  | rawSource
  | ast
  | callgraph
  | tests
  | commitHistory
  | stateConfig
  | projectMetadata
  | businessRules
  | snapshot
  | errorLog
deriving Repr, DecidableEq

/-- `ChunkType::as_str`: the string encoding persisted in SQLite. -/
def ChunkType.asStr : ChunkType → String
  | .rawSource => "raw_source"
  | .ast => "ast"
  | .callgraph => "callgraph"
  | .tests => "tests"
  | .commitHistory => "commit_history"
  | .stateConfig => "state_config"
  | .projectMetadata => "project_metadata"
  | .businessRules => "business_rules"
  | .snapshot => "snapshot"
  | .errorLog => "error_log"

/-- `types.rs` `Chunk`: an in-memory chunk as the extractors build it.
Timestamps (`chrono::DateTime`) are abstract `Nat` instants. -/
structure Chunk where
  id : Option Nat
  project_path : String
  chunk_type : ChunkType
  file_path : Option String
  entity_name : Option String
  content : String
  content_hash : String
  metadata : Option String
  created_at : Nat
  updated_at : Nat
deriving Repr, DecidableEq

/-! ## Storage (`storage.rs`)

The `chunks` table is embedded as a list of rows plus the next
`AUTOINCREMENT` id.  `chunk_type` is stored as its string encoding, as in
SQLite. -/

/-- One row of the `chunks` table. -/
structure ChunkRow where
  id : Nat
  project_path : String
  chunk_type : String
  file_path : Option String
  entity_name : Option String
  content : String
  content_hash : String
  metadata : Option String
  snapshot_id : Option Nat
  created_at : Nat
  updated_at : Nat
deriving Repr, DecidableEq

/-- The `chunks` table with its id generator. -/
structure ChunkDb where
  rows : List ChunkRow
  nextId : Nat
deriving Repr, DecidableEq

/-- The row of the `chunks` table that the INSERT branch of `upsert_chunk`
writes. -/
def insertedRow (db : ChunkDb) (chunk : Chunk) (snapshot_id : Option Nat)
    (now : Nat) : ChunkRow :=
  { id := db.nextId
    project_path := chunk.project_path
    chunk_type := chunk.chunk_type.asStr
    file_path := chunk.file_path
    entity_name := chunk.entity_name
    content := chunk.content
    content_hash := chunk.content_hash
    metadata := chunk.metadata
    snapshot_id := snapshot_id
    created_at := now
    updated_at := now }

/-- `storage.rs` `upsert_chunk`: look up by `content_hash`; if a row exists,
UPDATE `updated_at`, `metadata`, `snapshot_id` of the rows with that hash
and return `false`; otherwise INSERT and return `true`.  (The UNIQUE index
on `content_hash` keeps the hash-matching row unique; the UPDATE's WHERE
clause is on `content_hash`, mirrored by the map below.) -/
def upsert_chunk (db : ChunkDb) (chunk : Chunk) (snapshot_id : Option Nat)
    (now : Nat) : ChunkDb × Bool :=
  match db.rows.find? (fun r => r.content_hash = chunk.content_hash) with
  | some _ =>
    ({ db with
        rows := db.rows.map (fun r =>
          if r.content_hash = chunk.content_hash then
            { r with updated_at := now, metadata := chunk.metadata,
                     snapshot_id := snapshot_id }
          else r) },
     false)
  | none =>
    ({ rows := db.rows ++ [insertedRow db chunk snapshot_id now]
       nextId := db.nextId + 1 },
     true)

/-! ## Raw-source extractor (`raw_source.rs`) -/

/-- The chunk built for one accepted file by `generate_raw_source_chunks`
(`raw_source.rs` lines 52-65): the file text verbatim, hashed. -/
def rawSourceChunkOf (project_path rel_path content : String) (now : Nat) : Chunk :=
  { id := none
    project_path := project_path
    chunk_type := .rawSource
    file_path := some rel_path
    entity_name := none
    content := content
    content_hash := calculate_content_hash content
    metadata := none
    created_at := now
    updated_at := now }

/-! ## Config extractor (`config.rs`) -/

/-- Rust `str::ends_with` (suffix test), as a character-list computation. -/
def endsWithB (s suffix : String) : Bool :=
  suffix.data.isSuffixOf s.data

/-- `config.rs` `is_config_file` — the file-name test is over the base name;
`fileName` is supplied by the caller (it is `Path::file_name`, an external
path operation). -/
def is_config_file (file_path fileName : String) : Bool :=
  (fileName = ".env" || fileName = ".env.local" || fileName = ".env.development" ||
   fileName = ".env.production" || fileName = "config.json" || fileName = "config.yaml" ||
   fileName = "config.yml" || fileName = "settings.json" || fileName = "settings.yaml" ||
   fileName = "appsettings.json") ||
  endsWithB file_path ".config.js" || endsWithB file_path ".config.ts" ||
  endsWithB file_path "rc.json"

/-- The chunk built by `generate_config_chunks` when `is_config_file` holds:
the file text verbatim, hashed. -/
def configChunkOf (project_path file_path content : String) (now : Nat) : Chunk :=
  { id := none
    project_path := project_path
    chunk_type := .stateConfig
    file_path := some file_path
    entity_name := none
    content := content
    content_hash := calculate_content_hash content
    metadata := none
    created_at := now
    updated_at := now }

/-! ## Project-metadata extractor (`metadata.rs`) -/

/-- The chunk built by `generate_metadata_chunks` when `is_metadata_file`
holds: the manifest text verbatim, hashed. -/
def metadataChunkOf (project_path file_path content : String) (now : Nat) : Chunk :=
  { id := none
    project_path := project_path
    chunk_type := .projectMetadata
    file_path := some file_path
    entity_name := none
    content := content
    content_hash := calculate_content_hash content
    metadata := none
    created_at := now
    updated_at := now }

/-! ## Test extractor (`tests.rs`)

The regex-driven `extract_test_functions` / `extract_expectations` results
are parameters here; the chunk-construction and hashing logic of
`generate_test_chunks` (lines 24-51) is translated. -/

/-- The two-section test document `generate_test_chunks` renders. -/
def testRepr (file_path : String) (test_functions expectations : List String) : String :=
  "# Test File: " ++ file_path ++ "\n" ++
  "# Test Functions: " ++ toString test_functions.length ++ "\n\n" ++
  String.join ((test_functions.enum.map
    (fun p => toString (p.1 + 1) ++ ". " ++ p.2 ++ "\n"))) ++
  "\n# Expectations: " ++ toString expectations.length ++ "\n" ++
  String.join (expectations.map (fun e => "- " ++ e ++ "\n"))

/-- The chunk built by `generate_test_chunks` for a detected test file. -/
def testsChunkOf (project_path file_path : String)
    (test_functions expectations : List String) (now : Nat) : Chunk :=
  let repr := testRepr file_path test_functions expectations
  { id := none
    project_path := project_path
    chunk_type := .tests
    file_path := some file_path
    entity_name := none
    content := repr
    content_hash := calculate_content_hash repr
    metadata := none
    created_at := now
    updated_at := now }

/-! ## Commit-history extractor (`commits.rs`)

Git supplies the commit data (`git2`, external); the textual record and
hash of `generate_commit_chunks` (lines 57-91) are translated.  The
`CommitMetadata` JSON blob is kept abstract (`metadataJson` parameter): its
contents are not part of any claim. -/

/-- The textual commit record `generate_commit_chunks` renders. -/
def commitRepr (oid authorName authorEmail dateStr message : String)
    (files_modified : List String) : String :=
  "Commit: " ++ oid ++ "\n" ++
  "Author: " ++ authorName ++ " <" ++ authorEmail ++ ">\n" ++
  "Date: " ++ dateStr ++ "\n\n" ++
  "Message:\n" ++ message ++ "\n\n" ++
  "Files Modified (" ++ toString files_modified.length ++ "):\n" ++
  String.join (files_modified.map (fun f => "  - " ++ f ++ "\n"))

/-- The chunk built by `generate_commit_chunks` for one commit. -/
def commitChunkOf (project_path oid authorName authorEmail dateStr message : String)
    (files_modified : List String) (metadataJson : String) (now : Nat) : Chunk :=
  let repr := commitRepr oid authorName authorEmail dateStr message files_modified
  { id := none
    project_path := project_path
    chunk_type := .commitHistory
    file_path := none
    entity_name := some oid
    content := repr
    content_hash := calculate_content_hash repr
    metadata := some metadataJson
    created_at := now
    updated_at := now }

/-! ## Call-graph extractor (`callgraph.rs`)

The `regex`-crate patterns of `extract_dependencies` /
`extract_function_calls` are embedded as hand-rolled scanners with the
crate's leftmost-first, non-overlapping `captures_iter` semantics.  For
each pattern the greedy/lazy backtracking collapses to maximal-run
scanning because every quantified class is disjoint from the character the
following element requires (argued at each matcher).  `\s` is embedded as
ASCII whitespace; the crate also accepts non-ASCII Unicode whitespace,
which no input in this development contains. -/

/-- `[a-zA-Z_]`: a character that can start an identifier. -/
def isWordStart (c : Char) : Bool := c.isAlpha || c = '_'

/-- `[a-zA-Z0-9_]`. -/
def isWordChar (c : Char) : Bool := c.isAlpha || c.isDigit || c = '_'

/-- `[a-zA-Z0-9_:]` (Rust `use` paths). -/
def isRustPathChar (c : Char) : Bool := isWordChar c || c = ':'

/-- `[a-zA-Z0-9_.]` (Python module paths). -/
def isPyModChar (c : Char) : Bool := isWordChar c || c = '.'

/-- `\s`, restricted to ASCII whitespace. -/
def isSpaceChar (c : Char) : Bool :=
  c = ' ' || c = '\t' || c = '\n' || c = '\r' || c = '\x0b' || c = '\x0c'

/-- `['"]`. -/
def isQuoteChar (c : Char) : Bool := c = '\'' || c = '"'

/-- Match a literal, returning the remainder. -/
def litAt : List Char → List Char → Option (List Char)
  | [], rest => some rest
  | _, [] => none
  | c :: cs, d :: ds => if c = d then litAt (c :: cs).tail (d :: ds).tail else none

/-- `use\s+([a-zA-Z0-9_:]+)` tried at the head of the input.  The capture
class excludes whitespace, so backtracking the greedy `\s+` cannot help and
both runs are maximal. -/
def rustUseAt (l : List Char) : Option (String × List Char) :=
  match litAt "use".data l with
  | none => none
  | some r1 =>
    let sp := r1.span isSpaceChar
    if sp.1.isEmpty then none
    else
      let cap := sp.2.span isRustPathChar
      if cap.1.isEmpty then none else some (String.mk cap.1, cap.2)

/-- `import\s+([a-zA-Z0-9_.]+)` tried at the head of the input (Python). -/
def pyImportAt (l : List Char) : Option (String × List Char) :=
  match litAt "import".data l with
  | none => none
  | some r1 =>
    let sp := r1.span isSpaceChar
    if sp.1.isEmpty then none
    else
      let cap := sp.2.span isPyModChar
      if cap.1.isEmpty then none else some (String.mk cap.1, cap.2)

/-- `from\s+([a-zA-Z0-9_.]+)\s+import` tried at the head of the input
(Python).  The capture class is disjoint from whitespace and whitespace
from the following literal, so all runs are maximal. -/
def pyFromAt (l : List Char) : Option (String × List Char) :=
  match litAt "from".data l with
  | none => none
  | some r1 =>
    let sp := r1.span isSpaceChar
    if sp.1.isEmpty then none
    else
      let cap := sp.2.span isPyModChar
      if cap.1.isEmpty then none
      else
        let sp2 := cap.2.span isSpaceChar
        if sp2.1.isEmpty then none
        else
          match litAt "import".data sp2.2 with
          | none => none
          | some r5 => some (String.mk cap.1, r5)

/-- `require\(['"]([^'"]+)['"]\)` tried at the head of the input.  The
capture `[^'"]+` stops exactly at the first quote, which the following
class must consume. -/
def jsRequireAt (l : List Char) : Option (String × List Char) :=
  match litAt "require(".data l with
  | none => none
  | some r1 =>
    match r1 with
    | q :: r2 =>
      if isQuoteChar q then
        let cap := r2.span (fun c => !(isQuoteChar c))
        if cap.1.isEmpty then none
        else
          match cap.2 with
          | q2 :: r4 =>
            if isQuoteChar q2 then
              match r4 with
              | ')' :: r5 => some (String.mk cap.1, r5)
              | _ => none
            else none
          | [] => none
      else none
    | [] => none

/-- `from\s+['"]([^'"]+)['"]`, the suffix of the JS import pattern, tried
at the head of the input. -/
def fromQuotedAt (l : List Char) : Option (String × List Char) :=
  match litAt "from".data l with
  | none => none
  | some r1 =>
    let sp := r1.span isSpaceChar
    if sp.1.isEmpty then none
    else
      match sp.2 with
      | q :: r3 =>
        if isQuoteChar q then
          let cap := r3.span (fun c => !(isQuoteChar c))
          if cap.1.isEmpty then none
          else
            match cap.2 with
            | q2 :: r5 => if isQuoteChar q2 then some (String.mk cap.1, r5) else none
            | [] => none
        else none
      | [] => none

/-- The lazy `.*?` of the JS import pattern: try the suffix pattern at the
current point, else consume one non-newline character and retry (shortest
extension first, as lazy repetition prefers). -/
def jsDotLoop : Nat → List Char → Option (String × List Char)
  | 0, l => fromQuotedAt l
  | fuel + 1, l =>
    match fromQuotedAt l with
    | some res => some res
    | none =>
      match l with
      | [] => none
      | c :: tl => if c = '\n' then none else jsDotLoop fuel tl

/-- The greedy `\s+` of the JS import pattern: try the longest whitespace
run first and back off one character at a time, handing the remainder to
the lazy tail. -/
def jsSpaceK (sp r2 : List Char) : Nat → Option (String × List Char)
  | 0 => none
  | k + 1 =>
    let start := sp.drop (k + 1) ++ r2
    match jsDotLoop start.length start with
    | some res => some res
    | none => jsSpaceK sp r2 k

/-- `import\s+.*?from\s+['"]([^'"]+)['"]` tried at the head of the input
(JavaScript / TypeScript). -/
def jsImportAt (l : List Char) : Option (String × List Char) :=
  match litAt "import".data l with
  | none => none
  | some r1 =>
    let sp := r1.span isSpaceChar
    if sp.1.isEmpty then none else jsSpaceK sp.1 sp.2 sp.1.length

/-- `([a-zA-Z_][a-zA-Z0-9_]*)\s*\(` tried at the head of the input
(generic call-site pattern).  Only the maximal identifier run can be
followed by `\s*\(`, since a shorter run ends at a word character. -/
def callSiteAt (l : List Char) : Option (String × List Char) :=
  match l with
  | [] => none
  | c :: _ =>
    if isWordStart c then
      let run := l.span isWordChar
      let sp := run.2.span isSpaceChar
      match sp.2 with
      | '(' :: r3 => some (String.mk run.1, r3)
      | _ => none
    else none

/-- `captures_iter`: scan positions left to right; after a match continue
at the match end (non-overlapping). -/
def scanCaptures (m : List Char → Option (String × List Char)) :
    Nat → List Char → List String
  | 0, _ => []
  | _, [] => []
  | fuel + 1, c :: tl =>
    match m (c :: tl) with
    | some (cap, rest) => cap :: scanCaptures m fuel rest
    | none => scanCaptures m fuel tl

/-- All captures of a pattern over a string. -/
def runScan (m : List Char → Option (String × List Char)) (s : String) : List String :=
  scanCaptures m (s.data.length + 1) s.data

/-- `HashSet::insert` as first-occurrence deduplication: the set's
contents, listed in insertion order. -/
def insertAbsent (l : List String) (x : String) : List String :=
  if x ∈ l then l else l ++ [x]

/-- First-occurrence deduplication of a capture list: the contents of the
`HashSet` the code accumulates.  `HashSet::into_iter` yields these in an
unspecified order, embedded below as an arbitrary permutation applied to
this canonical list. -/
def dedupFO (l : List String) : List String := l.foldl insertAbsent []

/-- `callgraph.rs` `detect_language_by_extension`. -/
def detect_language_by_extension (file_path : String) : String :=
  if endsWithB file_path ".rs" then "rust"
  else if endsWithB file_path ".js" || endsWithB file_path ".jsx" then "javascript"
  else if endsWithB file_path ".ts" || endsWithB file_path ".tsx" then "typescript"
  else if endsWithB file_path ".py" then "python"
  else "unknown"

/-- `callgraph.rs` `extract_dependencies`, as the canonical (insertion-order)
listing of the accumulated `HashSet`. -/
def extract_dependencies (content language : String) : List String :=
  if language = "rust" then
    dedupFO (runScan rustUseAt content)
  else if language = "javascript" || language = "typescript" then
    dedupFO (runScan jsImportAt content ++ runScan jsRequireAt content)
  else if language = "python" then
    dedupFO (runScan pyImportAt content ++ runScan pyFromAt content)
  else []

/-- `callgraph.rs` `is_keyword`. -/
def is_keyword (word language : String) : Bool :=
  if language = "rust" then
    word = "if" || word = "else" || word = "while" || word = "for" || word = "loop" ||
    word = "match" || word = "return" || word = "break" || word = "continue"
  else if language = "javascript" || language = "typescript" then
    word = "if" || word = "else" || word = "while" || word = "for" || word = "switch" ||
    word = "case" || word = "return" || word = "break" || word = "continue" ||
    word = "function" || word = "class"
  else if language = "python" then
    word = "if" || word = "elif" || word = "else" || word = "while" || word = "for" ||
    word = "return" || word = "break" || word = "continue" || word = "def" ||
    word = "class"
  else false

/-- `callgraph.rs` `extract_function_calls`, canonical listing of the
accumulated `HashSet` (keywords filtered before insertion). -/
def extract_function_calls (content language : String) : List String :=
  dedupFO ((runScan callSiteAt content).filter (fun w => !(is_keyword w language)))

/-- `types.rs` `CallgraphMetadata`. -/
structure CallgraphMetadata where
  is_static : Bool
  entry_points : List String
  external_calls : List String
  call_count : Nat
deriving Repr, DecidableEq

/-- Minimal JSON string escaping as `serde_json` performs it (`\b`/`\f`
also fall to the `\u00..` form here; no claim depends on those bytes). -/
def jsonEscapeChar (c : Char) : String :=
  if c = '"' then "\\\""
  else if c = '\\' then "\\\\"
  else if c = '\n' then "\\n"
  else if c = '\r' then "\\r"
  else if c = '\t' then "\\t"
  else if c.toNat < 0x20 then "\\u00" ++ String.mk (hexByte c.toNat)
  else String.singleton c

/-- A JSON string literal. -/
def jsonStr (s : String) : String :=
  "\"" ++ String.join (s.data.map jsonEscapeChar) ++ "\""

/-- A JSON array of strings. -/
def jsonStrList (l : List String) : String :=
  "[" ++ String.intercalate "," (l.map jsonStr) ++ "]"

/-- `serde_json::to_string(&CallgraphMetadata)`: fields in declaration
order. -/
def encodeCallgraphMeta (m : CallgraphMetadata) : String :=
  "\x7b\"is_static\":" ++ (if m.is_static then "true" else "false") ++
  ",\"entry_points\":" ++ jsonStrList m.entry_points ++
  ",\"external_calls\":" ++ jsonStrList m.external_calls ++
  ",\"call_count\":" ++ toString m.call_count ++ "\x7d"

/-- The two-section call-graph document of `generate_callgraph_chunks`. -/
def callgraphContent (dependencies function_calls : List String) : String :=
  "# Dependencies (" ++ toString dependencies.length ++ ")\n" ++
  String.join (dependencies.map (fun d => "import: " ++ d ++ "\n")) ++
  "\n# Function Calls (" ++ toString function_calls.length ++ ")\n" ++
  String.join (function_calls.map (fun c => "call: " ++ c ++ "\n"))

/-- `generate_callgraph_chunks` (lines 16-59): the metadata and chunk built
for one file.  `depIter` / `callIter` choose the `HashSet` iteration order:
faithfulness constrains them only to permute the canonical listings. -/
def callgraphData (project_path file_path content : String)
    (depIter callIter : List String → List String) (now : Nat) :
    CallgraphMetadata × Chunk :=
  let language := detect_language_by_extension file_path
  let dependencies := depIter (extract_dependencies content language)
  let function_calls := callIter (extract_function_calls content language)
  let metadata : CallgraphMetadata :=
    { is_static := true
      entry_points := []
      external_calls := dependencies
      call_count := function_calls.length }
  let repr := callgraphContent dependencies function_calls
  (metadata,
   { id := none
     project_path := project_path
     chunk_type := .callgraph
     file_path := some file_path
     entity_name := none
     content := repr
     content_hash := calculate_content_hash repr
     metadata := some (encodeCallgraphMeta metadata)
     created_at := now
     updated_at := now })

/-! ## AST extractor (`ast.rs`)

tree-sitter (external) supplies the concrete syntax tree; it is embedded
as a rose tree carrying exactly the node data `serialize_ast_node` reads:
kind, start/end row, byte-range length, children. -/

mutual
inductive TSNode where
  | mk (kind : String) (startRow endRow byteLen : Nat) (children : TSForest)
inductive TSForest where
  | nil
  | cons (hd : TSNode) (tl : TSForest)
end

/-- `Node::child_count`. -/
def TSForest.length : TSForest → Nat
  | .nil => 0
  | .cons _ t => 1 + t.length

/-- `"  ".repeat(depth)`: the two-spaces-per-level indent. -/
def indentOf (depth : Nat) : String := String.mk (List.replicate (2 * depth) ' ')

mutual
/-- `ast.rs` `serialize_ast_node` (lines 63-100), with the three `&mut`
accumulators `(output, max_depth, node_count)` passed as explicit state. -/
def serialize_ast_node (n : TSNode) (depth : Nat) (st : String × Nat × Nat) :
    String × Nat × Nat :=
  match n with
  | .mk kind sr er blen children =>
    let nc := st.2.2 + 1
    let md := if depth > st.2.1 then depth else st.2.1
    let line := indentOf depth ++ kind ++ ":" ++ toString sr ++ "-" ++ toString er ++
      (if children.length == 0 && blen < 100 then " [" ++ kind ++ "]" else "") ++ "\n"
    let st1 := (st.1 ++ line, md, nc)
    if depth < 50 then serialize_forest children (depth + 1) st1 else st1
/-- The `for i in 0..child_count` loop of `serialize_ast_node`. -/
def serialize_forest (ns : TSForest) (depth : Nat) (st : String × Nat × Nat) :
    String × Nat × Nat :=
  match ns with
  | .nil => st
  | .cons c cs => serialize_forest cs depth (serialize_ast_node c depth st)
end

/-- Specification-side line for one node: `<indent><kind>:<startRow>-<endRow>`,
with ` [<kind>]` appended for a leaf of byte length < 100, then a newline. -/
def astLine (kind : String) (sr er blen : Nat) (isLeaf : Bool) (depth : Nat) : String :=
  indentOf depth ++ kind ++ ":" ++ toString sr ++ "-" ++ toString er ++
  (if isLeaf && blen < 100 then " [" ++ kind ++ "]" else "") ++ "\n"

mutual
/-- Specification-side serialization: one line per node, children only
while `depth < 50` (deeper nodes are dropped). -/
def astText (n : TSNode) (depth : Nat) : String :=
  match n with
  | .mk kind sr er blen children =>
    astLine kind sr er blen (children.length == 0) depth ++
    (if depth < 50 then astTextF children (depth + 1) else "")
def astTextF (ns : TSForest) (depth : Nat) : String :=
  match ns with
  | .nil => ""
  | .cons c cs => astText c depth ++ astTextF cs depth
end

mutual
/-- Number of nodes the serializer visits (emits) from this subtree. -/
def emittedCount (n : TSNode) (depth : Nat) : Nat :=
  match n with
  | .mk _ _ _ _ children =>
    1 + (if depth < 50 then emittedCountF children (depth + 1) else 0)
def emittedCountF (ns : TSForest) (depth : Nat) : Nat :=
  match ns with
  | .nil => 0
  | .cons c cs => emittedCount c depth + emittedCountF cs depth
end

mutual
/-- Greatest depth among the nodes the serializer visits in this subtree. -/
def emittedMaxD (n : TSNode) (depth : Nat) : Nat :=
  match n with
  | .mk _ _ _ _ children =>
    if depth < 50 then max depth (emittedMaxDF children (depth + 1)) else depth
def emittedMaxDF (ns : TSForest) (depth : Nat) : Nat :=
  match ns with
  | .nil => 0
  | .cons c cs => max (emittedMaxD c depth) (emittedMaxDF cs depth)
end

mutual
/-- Total node count of the tree, cap ignored. -/
def totalNodes : TSNode → Nat
  | .mk _ _ _ _ children => 1 + totalNodesF children
def totalNodesF : TSForest → Nat
  | .nil => 0
  | .cons c cs => totalNodes c + totalNodesF cs
end

/-- `types.rs` `AstMetadata`. -/
structure AstMetadata where
  language : String
  node_count : Nat
  max_depth : Nat
  has_syntax_errors : Bool
deriving Repr, DecidableEq

/-- `ast.rs` `get_language_name`: returns `"unknown"` unconditionally (the
tree-sitter `Language` argument is external and unused). -/
def get_language_name : String := "unknown"

/-- `serde_json::to_string(&AstMetadata)`: fields in declaration order. -/
def encodeAstMeta (m : AstMetadata) : String :=
  "\x7b\"language\":" ++ jsonStr m.language ++
  ",\"node_count\":" ++ toString m.node_count ++
  ",\"max_depth\":" ++ toString m.max_depth ++
  ",\"has_syntax_errors\":" ++ (if m.has_syntax_errors then "true" else "false") ++ "\x7d"

/-- `ast.rs` `generate_ast_chunks` (lines 29-56): serialize the parsed
tree, hash the serialization, and build the `ast` chunk.  `root` and
`has_error` come from the external parser. -/
def astData (project_path file_path : String) (root : TSNode) (has_error : Bool)
    (now : Nat) : AstMetadata × Chunk :=
  let res := serialize_ast_node root 0 ("", 0, 0)
  let metadata : AstMetadata :=
    { language := get_language_name
      node_count := res.2.2
      max_depth := res.2.1
      has_syntax_errors := has_error }
  (metadata,
   { id := none
     project_path := project_path
     chunk_type := .ast
     file_path := some file_path
     entity_name := none
     content := res.1
     content_hash := calculate_content_hash res.1
     metadata := some (encodeAstMeta metadata)
     created_at := now
     updated_at := now })

/-- A vertical chain of `n+1` nested nodes: the deepest sits at depth `n`. -/
def chainNode : Nat → TSNode
  | 0 => .mk "leaf" 0 0 1 .nil
  | n + 1 => .mk "node" 0 0 200 (.cons (chainNode n) .nil)

/-! ## Snapshot subsystem (`snapshots.rs`, snapshot rows of `storage.rs`)

The `snapshots` table is a list of rows plus the id generator.  The
`changed_files` column stores a JSON array of paths; the serde round trip
is external, so the column is embedded directly as the path list.  The
git2 working copy is a small explicit state: known commit ids, HEAD,
branches and lightweight tags.  Commit ids are supplied by the caller
(object ids are produced by git, outside the core). -/

/-- One row of the `snapshots` table. -/
structure SnapshotRow where
  id : Nat
  project_path : String
  snapshot_type : String
  parent_snapshot_id : Option Nat
  message : String
  user_message : Option String
  changed_files : List String
  diff_summary : Option String
  metadata : Option String
  git_commit_hash : Option String
  git_tag : Option String
  git_branch : Option String
  version_major : Int
  version_minor : Option Int
  created_at : Nat
deriving Repr, DecidableEq

/-- The `snapshots` table with its id generator. -/
structure SnapDb where
  rows : List SnapshotRow
  nextId : Nat
deriving Repr, DecidableEq

/-- The git2 working copy, as far as the core observes it. -/
structure GitState where
  commits : List String
  headCommit : String
  headRef : String
  branches : List (String × String)
  tags : List (String × String)
deriving Repr, DecidableEq

/-- SQL `MAX` over a column: `NULL` on no rows, else the greatest value. -/
def sqlMax (l : List Int) : Option Int :=
  l.foldl (fun acc v => match acc with
    | none => some v
    | some m => some (max m v)) none

/-- The `version_major` values of project `P`'s master snapshots. -/
def masterVersions (db : SnapDb) (project_path : String) : List Int :=
  (db.rows.filter (fun r =>
    r.project_path = project_path && r.snapshot_type = "master")).map (·.version_major)

/-- `snapshots.rs` `get_next_master_version`:
`MAX(version_major)` over the project's master rows, `NULL → 0`, plus 1. -/
def get_next_master_version (db : SnapDb) (project_path : String) : Int :=
  (sqlMax (masterVersions db project_path)).getD 0 + 1

/-- The `version_minor` values of project `P`'s agent snapshots under
master version `M` (SQL `MAX` ignores NULL minors). -/
def agentMinors (db : SnapDb) (project_path : String) (master_version : Int) : List Int :=
  ((db.rows.filter (fun r =>
    r.project_path = project_path && r.snapshot_type = "agent" &&
    r.version_major = master_version)).filterMap (·.version_minor))

/-- `snapshots.rs` `get_next_agent_version`. -/
def get_next_agent_version (db : SnapDb) (project_path : String)
    (master_version : Int) : Int :=
  (sqlMax (agentMinors db project_path master_version)).getD 0 + 1

/-- `storage.rs` `create_snapshot`: INSERT the row, returning
`last_insert_rowid`. -/
def create_snapshot (db : SnapDb) (s : SnapshotRow) : SnapDb × Nat :=
  ({ rows := db.rows ++ [{ s with id := db.nextId }], nextId := db.nextId + 1 },
   db.nextId)

/-- `snapshots.rs` `create_master_snapshot_with_git` (lines 105-175), from
an already-initialized working copy (`ensure_git_initialized` opens or
creates it; the embedding starts from the opened state).  `newCommitId` is
the object id git assigns to the new commit and `changedFiles` is the
`diff_tree_to_workdir_with_index` path list, both external inputs.  The
lightweight tag is created with `force = false`: an existing tag of the
same name is a git error, surfaced before the row is inserted. -/
def create_master_snapshot_with_git (db : SnapDb) (git : GitState)
    (project_path user_message : String) (newCommitId : String)
    (changedFiles : List String) (now : Nat) :
    Except String (SnapDb × GitState × Nat × Int) :=
  let version := get_next_master_version db project_path
  let tag_name := "v" ++ toString version
  let commit_message := "Master snapshot V" ++ toString version ++ ": " ++ user_message
  if (git.tags.map Prod.fst).contains tag_name then
    .error "tag already exists"
  else
    let git' : GitState :=
      { git with
          commits := newCommitId :: git.commits
          headCommit := newCommitId
          tags := git.tags ++ [(tag_name, newCommitId)] }
    let row : SnapshotRow :=
      { id := 0
        project_path := project_path
        snapshot_type := "master"
        parent_snapshot_id := none
        message := commit_message
        user_message := some user_message
        changed_files := changedFiles
        diff_summary := some (toString changedFiles.length ++ " files changed")
        metadata := none
        git_commit_hash := some newCommitId
        git_tag := some tag_name
        git_branch := some "main"
        version_major := version
        version_minor := none
        created_at := now }
    let (db', sid) := create_snapshot db row
    .ok (db', git', sid, version)

/-- The metadata JSON `create_agent_snapshot_with_git` stores
(`serde_json::json!` with `master_version` / `agent_version`). -/
def agentMetaJson (master_version agent_version : Int) : String :=
  "\x7b\"agent_version\":" ++ toString agent_version ++
  ",\"master_version\":" ++ toString master_version ++ "\x7d"

/-- `snapshots.rs` `create_agent_snapshot_with_git` (lines 180-307).
`repoChangedFiles` is the live diff used when no override is given.  The
agent commit lands on the fresh `agent/v{M}.{A}` branch; HEAD is restored
to `refs/heads/main` before returning, so the checked-out commit is the
`main` tip — unchanged by this call (the embedding starts from a state
checked out on `main`, which the subsystem maintains). -/
def create_agent_snapshot_with_git (db : SnapDb) (git : GitState)
    (project_path : String) (master_snapshot_id : Nat) (message : String)
    (changed_files_override : Option (List String)) (newCommitId : String)
    (repoChangedFiles : List String) (now : Nat) :
    Except String (SnapDb × GitState × Nat × Int × Int) :=
  match db.rows.find? (fun r => r.id = master_snapshot_id) with
  | none => .error "query returned no rows"
  | some master_snapshot =>
    let master_version := master_snapshot.version_major
    let agent_version := get_next_agent_version db project_path master_version
    let tag_name := "v" ++ toString master_version ++ "." ++ toString agent_version
    let branch_name := "agent/v" ++ toString master_version ++ "." ++ toString agent_version
    match master_snapshot.git_commit_hash with
    | none => .error "Master snapshot does not have git_commit_hash"
    | some master_commit_hash =>
      if !(git.commits.contains master_commit_hash) then
        .error "commit not found"
      else if (git.branches.map Prod.fst).contains branch_name then
        .error "branch already exists"
      else if (git.tags.map Prod.fst).contains tag_name then
        .error "tag already exists"
      else
        let commit_message := "Agent snapshot V" ++ toString master_version ++ "." ++
          toString agent_version ++ ": " ++ message
        let changed_files := changed_files_override.getD repoChangedFiles
        let git' : GitState :=
          { commits := newCommitId :: git.commits
            headCommit := git.headCommit
            headRef := "refs/heads/main"
            branches := git.branches ++ [(branch_name, newCommitId)]
            tags := git.tags ++ [(tag_name, newCommitId)] }
        let row : SnapshotRow :=
          { id := 0
            project_path := project_path
            snapshot_type := "agent"
            parent_snapshot_id := some master_snapshot_id
            message := commit_message
            user_message := none
            changed_files := changed_files
            diff_summary := some (toString changed_files.length ++ " files changed")
            metadata := some (agentMetaJson master_version agent_version)
            git_commit_hash := some newCommitId
            git_tag := some tag_name
            git_branch := some branch_name
            version_major := master_version
            version_minor := some agent_version
            created_at := now }
        let (db', sid) := create_snapshot db row
        .ok (db', git', sid, master_version, agent_version)

/-- `snapshots.rs` `rewind_master_to_snapshot_with_git` (lines 313-385):
load the snapshot, require `type = master` and a commit hash, hard-reset
HEAD to that commit, and DELETE the project's master rows with a greater
`version_major`.  Agent rows and their branches are untouched. -/
def rewind_master_to_snapshot_with_git (db : SnapDb) (git : GitState)
    (snapshot_id : Nat) : Except String (SnapDb × GitState) :=
  match db.rows.find? (fun r => r.id = snapshot_id) with
  | none => .error "query returned no rows"
  | some snapshot =>
    if snapshot.snapshot_type ≠ "master" then
      .error "Can only rewind to master snapshots"
    else
      match snapshot.git_commit_hash with
      | none => .error "Snapshot does not have git_commit_hash"
      | some commit_hash =>
        if !(git.commits.contains commit_hash) then
          .error "commit not found"
        else
          let git' := { git with headCommit := commit_hash }
          let db' : SnapDb :=
            { db with rows := db.rows.filter (fun r =>
                !(r.project_path = snapshot.project_path &&
                  r.snapshot_type = "master" &&
                  snapshot.version_major < r.version_major)) }
          .ok (db', git')

/-! ## Error logs (`storage.rs` `upsert_error_log`, `errors.rs`) -/

/-- One row of the `error_logs` table (`occurrence_count` is an `i32` in
the schema; it only ever holds `1` or an increment of a stored value). -/
structure ErrorRow where
  id : Nat
  project_path : String
  snapshot_id : Option Nat
  file_path : Option String
  entity_name : Option String
  error_type : String
  message : String
  stacktrace : Option String
  occurrence_count : Nat
  first_seen : Nat
  last_seen : Nat
  is_resolved : Bool
deriving Repr, DecidableEq

/-- The `error_logs` table with its id generator. -/
structure ErrDb where
  rows : List ErrorRow
  nextId : Nat
deriving Repr, DecidableEq

/-- Does a row match the dedup key `(project, error_type, message)` among
unresolved rows? -/
def errMatches (project_path error_type message : String) (r : ErrorRow) : Bool :=
  r.project_path = project_path && r.error_type = error_type &&
  r.message = message && r.is_resolved = false

/-- `storage.rs` `upsert_error_log` (lines 524-564): find an unresolved row
with the same `(project, error_type, message)`; if found, bump its
`occurrence_count` and `last_seen`; else INSERT with count 1.  Returns the
matched or new row id. -/
def upsert_error_log (db : ErrDb) (project_path error_type message : String)
    (file_path entity_name stacktrace : Option String) (snapshot_id : Option Nat)
    (now : Nat) : ErrDb × Nat :=
  match db.rows.find? (errMatches project_path error_type message) with
  | some existing =>
    ({ db with rows := db.rows.map (fun r =>
        if r.id = existing.id then
          { r with occurrence_count := r.occurrence_count + 1, last_seen := now }
        else r) },
     existing.id)
  | none =>
    ({ rows := db.rows ++ [{
        id := db.nextId
        project_path := project_path
        snapshot_id := snapshot_id
        file_path := file_path
        entity_name := entity_name
        error_type := error_type
        message := message
        stacktrace := stacktrace
        occurrence_count := 1
        first_seen := now
        last_seen := now
        is_resolved := false }]
       nextId := db.nextId + 1 },
     db.nextId)

/-- `errors.rs` `resolve_error`: `UPDATE error_logs SET is_resolved = 1
WHERE id = ?`. -/
def resolve_error (db : ErrDb) (error_id : Nat) : ErrDb :=
  { db with rows := db.rows.map (fun r =>
      if r.id = error_id then { r with is_resolved := true } else r) }

/-- `n` successive `upsert_error_log` calls with the same key, at the
instants in `ts`. -/
def log_error_times (db : ErrDb) (project_path error_type message : String)
    (ts : List Nat) : ErrDb :=
  ts.foldl (fun d t =>
    (upsert_error_log d project_path error_type message none none none none t).1) db

/-! ## Orchestrator (`mod.rs`)

`reindex_changed_files` walks the changed-file list, reads each surviving
file and regenerates the raw-source and AST chunks through `upsert_chunk`.
The file system and the two chunk constructors it calls
(`raw_source::create_raw_source_chunk`, `ast::create_ast_chunks` — their
definitions are not among the sources of this repository snapshot; only
this caller is) are parameters.  The embedding additionally returns the
trace of `snapshot_id` arguments passed to `upsert_chunk`, one entry per
call, so that the snapshot-linkage claim is statable. -/

/-- The per-run counters of `types.rs` `ChunkingResult` that
`reindex_changed_files` fills in. -/
structure ReindexCounts where
  chunks_created : Nat
  chunks_updated : Nat
  errors : List String
deriving Repr, DecidableEq

/-- External collaborators of the incremental reindex: file existence,
file reading, and the two per-file chunk constructors. -/
structure ReindexEnv where
  pathExists : String → Bool
  readFile : String → Except String String
  rawChunk : String → String → Except String Chunk
  astChunks : String → String → Except String (List Chunk)

/-- Upsert a list of chunks in order, threading the database and counters
and recording each `snapshot_id` argument (the AST loop body of
`reindex_changed_files`). -/
def upsertMany (cdb : ChunkDb) (chunks : List Chunk) (snapshot_id : Option Nat)
    (now : Nat) (counts : ReindexCounts) (trace : List (Option Nat)) :
    ChunkDb × ReindexCounts × List (Option Nat) :=
  match chunks with
  | [] => (cdb, counts, trace)
  | c :: rest =>
    let (cdb', created) := upsert_chunk cdb c snapshot_id now
    let counts' := if created then
        { counts with chunks_created := counts.chunks_created + 1 }
      else
        { counts with chunks_updated := counts.chunks_updated + 1 }
    upsertMany cdb' rest snapshot_id now counts' (trace ++ [snapshot_id])

/-- The body of `reindex_changed_files` for one changed path. -/
def reindexOneFile (env : ReindexEnv) (cdb : ChunkDb) (project_path file_path : String)
    (snapshot_id : Option Nat) (now : Nat) (counts : ReindexCounts)
    (trace : List (Option Nat)) : ChunkDb × ReindexCounts × List (Option Nat) :=
  let full_path := project_path ++ "/" ++ file_path
  if !(env.pathExists full_path) then
    (cdb, counts, trace)
  else
    match env.readFile full_path with
    | .error e =>
      (cdb, { counts with errors := counts.errors ++ ["Failed to read " ++ file_path ++ ": " ++ e] }, trace)
    | .ok content =>
      let (cdb1, counts1, trace1) :=
        match env.rawChunk full_path content with
        | .ok chunk => upsertMany cdb [chunk] snapshot_id now counts trace
        | .error _ => (cdb, counts, trace)
      match env.astChunks full_path content with
      | .ok ast_chunks => upsertMany cdb1 ast_chunks snapshot_id now counts1 trace1
      | .error _ => (cdb1, counts1, trace1)

/-- `mod.rs` `reindex_changed_files` (lines 169-255).  The Rust function
returns `Ok(ChunkingResult)` on every path; per-chunk storage errors only
accumulate in the result's `errors` list. -/
def reindex_changed_files (env : ReindexEnv) (cdb : ChunkDb)
    (project_path : String) (changed_files : List String)
    (snapshot_id : Option Nat) (now : Nat) :
    ChunkDb × ReindexCounts × List (Option Nat) :=
  changed_files.foldl
    (fun acc f => reindexOneFile env acc.1 project_path f snapshot_id now acc.2.1 acc.2.2)
    (cdb, ⟨0, 0, []⟩, [])

/-- `mod.rs` `create_user_snapshot` (lines 259-305): create the master
snapshot, read the persisted row's changed-file list, reindex it tagged
with the new snapshot id, and return the id.  A reindex failure is only
logged, so the reindex step is a parameter `reindexFn`: the theorem about
this function quantifies over every possible outcome of it. -/
def create_user_snapshot (db : SnapDb) (git : GitState) (cdb : ChunkDb)
    (project_path user_message : String)
    (reindexFn : ChunkDb → List String → Option Nat →
      Except String (ChunkDb × ReindexCounts × List (Option Nat)))
    (newCommitId : String) (changedFiles : List String) (now : Nat) :
    Except String (Nat × SnapDb × GitState × ChunkDb × List (Option Nat)) := do
  let (db1, git1, snapshot_id, _version) ←
    create_master_snapshot_with_git db git project_path user_message newCommitId
      changedFiles now
  let changed_files :=
    (((db1.rows.find? (fun r => r.id = snapshot_id)).map (·.changed_files)).getD [])
  if changed_files.isEmpty then
    .ok (snapshot_id, db1, git1, cdb, [])
  else
    match reindexFn cdb changed_files (some snapshot_id) with
    | .ok (cdb', _counts, trace) => .ok (snapshot_id, db1, git1, cdb', trace)
    | .error _e => .ok (snapshot_id, db1, git1, cdb, [])

/-- `mod.rs` `create_agent_snapshot` (lines 309-346): create the agent
snapshot, reindex the explicit changed-file list tagged with the new id,
and return the id; a reindex failure is only logged. -/
def create_agent_snapshot (db : SnapDb) (git : GitState) (cdb : ChunkDb)
    (project_path message : String) (changed_files : List String)
    (master_snapshot_id : Nat)
    (reindexFn : ChunkDb → List String → Option Nat →
      Except String (ChunkDb × ReindexCounts × List (Option Nat)))
    (newCommitId : String) (repoChangedFiles : List String) (now : Nat) :
    Except String (Nat × SnapDb × GitState × ChunkDb × List (Option Nat)) := do
  let (db1, git1, snapshot_id, _mv, _av) ←
    create_agent_snapshot_with_git db git project_path master_snapshot_id message
      (some changed_files) newCommitId repoChangedFiles now
  if changed_files.isEmpty then
    .ok (snapshot_id, db1, git1, cdb, [])
  else
    match reindexFn cdb changed_files (some snapshot_id) with
    | .ok (cdb', _counts, trace) => .ok (snapshot_id, db1, git1, cdb', trace)
    | .error _e => .ok (snapshot_id, db1, git1, cdb, [])

/-! ## Theorems -/

set_option maxRecDepth 10000

/-- `find?` returns the head of the filtered list. -/
theorem find?_eq_head?_filter {α : Type} (p : α → Bool) (l : List α) :
    l.find? p = (l.filter p).head? := by
  induction l with
  | nil => rfl
  | cons a t ih =>
    rw [List.find?_cons, List.filter_cons]
    by_cases h : p a
    · rw [h]; rfl
    · simp only [Bool.not_eq_true] at h
      rw [h]; exact ih

/-- The field update the UPDATE branch of `upsert_chunk` applies to the
hash-matching rows. -/
def updRow (c : Chunk) (sid : Option Nat) (now : Nat) (r : ChunkRow) : ChunkRow :=
  if r.content_hash = c.content_hash then
    { r with updated_at := now, metadata := c.metadata, snapshot_id := sid }
  else r

/-- `upsert_chunk` on a database holding the hash: UPDATE branch. -/
theorem upsert_chunk_found (db : ChunkDb) (c : Chunk) (sid : Option Nat) (now : Nat)
    (h : ∃ r ∈ db.rows, r.content_hash = c.content_hash) :
    upsert_chunk db c sid now =
      ({ rows := db.rows.map (updRow c sid now), nextId := db.nextId }, false) := by
  obtain ⟨r, hr, hh⟩ := h
  have hsome : (db.rows.find? (fun x => x.content_hash = c.content_hash)).isSome :=
    List.find?_isSome.mpr ⟨r, hr, by simp [hh]⟩
  obtain ⟨x, hx⟩ := Option.isSome_iff_exists.mp hsome
  simp [upsert_chunk, hx, updRow]

/-- `upsert_chunk` on a database free of the hash: INSERT branch. -/
theorem upsert_chunk_notfound (db : ChunkDb) (c : Chunk) (sid : Option Nat) (now : Nat)
    (h : ∀ r ∈ db.rows, r.content_hash ≠ c.content_hash) :
    upsert_chunk db c sid now =
      ({ rows := db.rows ++ [insertedRow db c sid now], nextId := db.nextId + 1 }, true) := by
  have hnone : db.rows.find? (fun x => x.content_hash = c.content_hash) = none :=
    List.find?_eq_none.mpr (fun x hx => by simp [h x hx])
  simp [upsert_chunk, hnone]

/-- C1: `upsert_chunk(c, snapshot_id)` — if a row with `c.content_hash`
already exists, only `updated_at`, `metadata` and `snapshot_id` of the
hash-matching row change (the pointwise `map` equation: non-matching rows
are untouched) and the call returns `created = false`; otherwise a new row
carrying `c`'s fields is appended and the call returns `created = true`.
Two successive calls with the same chunk leave exactly one row with that
hash, the second returning `false`, and the stored content is still the
first call's content — never rewritten on re-ingest. -/
theorem upsert_chunk_contract (db : ChunkDb) (c : Chunk) (sid : Option Nat) (now : Nat) :
    ((∃ r ∈ db.rows, r.content_hash = c.content_hash) →
      (upsert_chunk db c sid now).2 = false ∧
      (upsert_chunk db c sid now).1.rows = db.rows.map (updRow c sid now)) ∧
    ((∀ r ∈ db.rows, r.content_hash ≠ c.content_hash) →
      (upsert_chunk db c sid now).2 = true ∧
      (upsert_chunk db c sid now).1.rows = db.rows ++ [insertedRow db c sid now]) ∧
    ((∀ r ∈ db.rows, r.content_hash ≠ c.content_hash) →
      (upsert_chunk (upsert_chunk db c sid now).1 c sid now).2 = false ∧
      ((upsert_chunk (upsert_chunk db c sid now).1 c sid now).1.rows.filter
        (fun r => r.content_hash = c.content_hash)).length = 1 ∧
      (∀ r ∈ (upsert_chunk (upsert_chunk db c sid now).1 c sid now).1.rows,
        r.content_hash = c.content_hash → r.content = c.content)) := by
  refine ⟨fun h => ?_, fun h => ?_, fun h => ?_⟩
  · rw [upsert_chunk_found db c sid now h]
    exact ⟨rfl, rfl⟩
  · rw [upsert_chunk_notfound db c sid now h]
    exact ⟨rfl, rfl⟩
  · have h1 := upsert_chunk_notfound db c sid now h
    set ir := insertedRow db c sid now with hir
    have hmem : ir ∈ (upsert_chunk db c sid now).1.rows := by
      rw [h1]; simp
    have hirh : ir.content_hash = c.content_hash := rfl
    have h2 := upsert_chunk_found (upsert_chunk db c sid now).1 c sid now ⟨ir, hmem, hirh⟩
    rw [h2]
    refine ⟨rfl, ?_, ?_⟩
    · rw [h1]
      simp only [List.map_append, List.filter_append]
      have hid : (db.rows.map (updRow c sid now)) = db.rows := by
        conv_rhs => rw [← List.map_id db.rows]
        refine List.map_congr_left (fun r hr => ?_)
        simp [updRow, h r hr]
      rw [hid]
      have hnil : db.rows.filter (fun r => r.content_hash = c.content_hash) = [] :=
        List.filter_eq_nil_iff.mpr (fun r hr => by simp [h r hr])
      rw [hnil]
      simp [updRow, hirh]
    · intro r hr hrh
      rw [h1] at hr
      simp only [List.map_append, List.mem_append] at hr
      rcases hr with hr | hr
      · have hid : (db.rows.map (updRow c sid now)) = db.rows := by
          conv_rhs => rw [← List.map_id db.rows]
          refine List.map_congr_left (fun x hx => ?_)
          simp [updRow, h x hx]
        rw [hid] at hr
        exact absurd hrh (h r hr)
      · simp only [List.map_cons, List.map_nil, List.mem_singleton] at hr
        subst hr
        simp [updRow, hirh]
        rfl

/-- Fixture: an empty chunk database. -/
def wDb0 : ChunkDb := ⟨[], 1⟩

/-- Fixture: a chunk as the first ingestion produces it. -/
def wChunkA : Chunk :=
  { id := none, project_path := "p1", chunk_type := .rawSource,
    file_path := some "a.rs", entity_name := none, content := "x",
    content_hash := "h", metadata := none, created_at := 3, updated_at := 3 }

/-- Witness for C1 at a concrete database: two successive upserts of the
same chunk starting from the empty table. -/
theorem upsert_chunk_contract_witness :
    (upsert_chunk (upsert_chunk wDb0 wChunkA none 5).1 wChunkA none 5).2 = false ∧
    ((upsert_chunk (upsert_chunk wDb0 wChunkA none 5).1 wChunkA none 5).1.rows.filter
      (fun r => r.content_hash = wChunkA.content_hash)).length = 1 :=
  have h := (upsert_chunk_contract wDb0 wChunkA none 5).2.2 (by decide)
  ⟨h.1, h.2.1⟩

/-- The identifying attribution of a chunk row: project, type, path,
entity and content — everything the UPDATE branch must not touch. -/
def rowAttribution (r : ChunkRow) :
    String × String × Option String × Option String × String :=
  (r.project_path, r.chunk_type, r.file_path, r.entity_name, r.content)

/-- C10: chunk dedup is global.  `upsert_chunk` looks up by `content_hash`
over the whole table, so ingesting a chunk with an already-stored hash —
here from a different project — returns `created = false`; the single row
with that hash keeps the first ingestion's project, type, path, entity and
content, and no row's attribution changes at all. -/
theorem upsert_chunk_global (db : ChunkDb) (c : Chunk) (sid : Option Nat) (now : Nat)
    (r0 : ChunkRow)
    (hfilter : db.rows.filter (fun r => r.content_hash = c.content_hash) = [r0])
    (_hproj : c.project_path ≠ r0.project_path) :
    (upsert_chunk db c sid now).2 = false ∧
    (upsert_chunk db c sid now).1.rows.filter
        (fun r => r.content_hash = c.content_hash) =
      [{ r0 with updated_at := now, metadata := c.metadata, snapshot_id := sid }] ∧
    (upsert_chunk db c sid now).1.rows.map rowAttribution =
      db.rows.map rowAttribution := by
  have hr0 : r0 ∈ db.rows.filter (fun r => r.content_hash = c.content_hash) := by
    rw [hfilter]; exact List.mem_singleton_self r0
  have hr0' := List.mem_filter.mp hr0
  have hmem : r0 ∈ db.rows := hr0'.1
  have hh : r0.content_hash = c.content_hash := by simpa using hr0'.2
  have hfound := upsert_chunk_found db c sid now ⟨r0, hmem, hh⟩
  rw [hfound]
  have hpres : ∀ r : ChunkRow,
      (fun x : ChunkRow => decide (x.content_hash = c.content_hash)) (updRow c sid now r) =
      (fun x : ChunkRow => decide (x.content_hash = c.content_hash)) r := by
    intro r
    by_cases hc : r.content_hash = c.content_hash <;> simp [updRow, hc]
  refine ⟨rfl, ?_, ?_⟩
  · rw [List.filter_map]
    have : (db.rows.filter
        ((fun x : ChunkRow => decide (x.content_hash = c.content_hash)) ∘ updRow c sid now)) =
        db.rows.filter (fun x => decide (x.content_hash = c.content_hash)) :=
      List.filter_congr (fun r _ => hpres r)
    rw [this, hfilter]
    simp [updRow, hh]
  · rw [List.map_map]
    refine List.map_congr_left (fun r _ => ?_)
    by_cases hc : r.content_hash = c.content_hash <;>
      simp [updRow, rowAttribution, hc]

/-- Fixture: the stored row of the first ingestion (project `p1`). -/
def wRow1 : ChunkRow :=
  { id := 1, project_path := "p1", chunk_type := "raw_source",
    file_path := some "a.rs", entity_name := none, content := "x",
    content_hash := "h", metadata := none, snapshot_id := none,
    created_at := 1, updated_at := 1 }

/-- Fixture: a one-row chunk table holding `wRow1`. -/
def wDb1 : ChunkDb := ⟨[wRow1], 2⟩

/-- Fixture: the same content re-ingested from project `p2`. -/
def wChunkB : Chunk := { wChunkA with project_path := "p2" }

/-- Witness for C10: re-ingesting `wRow1`'s content from project `p2`. -/
theorem upsert_chunk_global_witness :
    (upsert_chunk wDb1 wChunkB none 7).2 = false ∧
    (upsert_chunk wDb1 wChunkB none 7).1.rows.filter
        (fun r => r.content_hash = wChunkB.content_hash) =
      [{ wRow1 with
           updated_at := 7, metadata := wChunkB.metadata, snapshot_id := none }] ∧
    (upsert_chunk wDb1 wChunkB none 7).1.rows.map rowAttribution =
      wDb1.rows.map rowAttribution :=
  upsert_chunk_global wDb1 wChunkB none 7 wRow1 (by decide) (by decide)

/-- A hex digit of a value below 16 is a decimal digit or `a`–`f`. -/
theorem hexDigit_char (n : Nat) (h : n < 16) :
    (hexDigit n).isDigit = true ∨ ('a' ≤ hexDigit n ∧ hexDigit n ≤ 'f') := by
  interval_cases n <;> decide

/-- Both characters `hexByte` emits are lowercase hex digits. -/
theorem hexByte_chars (b : Nat) :
    ∀ ch ∈ hexByte b, ch.isDigit = true ∨ ('a' ≤ ch ∧ ch ≤ 'f') := by
  intro ch hch
  simp only [hexByte, List.mem_cons, List.not_mem_nil, or_false] at hch
  rcases hch with h | h <;> subst h
  · exact hexDigit_char _ (Nat.mod_lt _ (by norm_num))
  · exact hexDigit_char _ (Nat.mod_lt _ (by norm_num))

/-- `bytesToHex` renders two characters per byte. -/
theorem bytesToHex_length (bs : List Nat) : (bytesToHex bs).length = 2 * bs.length := by
  show ((bs.map hexByte).flatten).length = 2 * bs.length
  induction bs with
  | nil => rfl
  | cons b t ih =>
    simp only [List.map_cons, List.flatten_cons, List.length_append, ih]
    simp [hexByte]
    omega

/-- Every character `bytesToHex` renders is a lowercase hex digit. -/
theorem bytesToHex_chars (bs : List Nat) :
    ∀ ch ∈ (bytesToHex bs).data, ch.isDigit = true ∨ ('a' ≤ ch ∧ ch ≤ 'f') := by
  intro ch hch
  have : ch ∈ (bs.map hexByte).flatten := hch
  obtain ⟨l, hl, hchl⟩ := List.mem_flatten.mp this
  obtain ⟨b, _, rfl⟩ := List.mem_map.mp hl
  exact hexByte_chars b ch hchl

/-- The SHA-256 digest is 32 bytes. -/
theorem digest_length (msg : List Nat) : (Sha256.digest msg).length = 32 := by
  simp [Sha256.digest, Sha256.wordBytes]

/-- C2: every chunk constructor hashes exactly the content it stores:
`content_hash = calculate_content_hash content` for the raw-source,
config, metadata, tests, commit-history, call-graph and AST chunks; the
AST chunk stores (and hashes) the serialized AST text, not the source
file text; and `calculate_content_hash` always yields 64 lowercase
hexadecimal characters (the SHA-256 digest in `{:x}` form). -/
theorem chunk_content_hash_invariant :
    (∀ pp rp content now, (rawSourceChunkOf pp rp content now).content_hash =
        calculate_content_hash (rawSourceChunkOf pp rp content now).content ∧
      (rawSourceChunkOf pp rp content now).content = content) ∧
    (∀ pp fp content now, (configChunkOf pp fp content now).content_hash =
        calculate_content_hash (configChunkOf pp fp content now).content) ∧
    (∀ pp fp content now, (metadataChunkOf pp fp content now).content_hash =
        calculate_content_hash (metadataChunkOf pp fp content now).content) ∧
    (∀ pp fp tf ex now, (testsChunkOf pp fp tf ex now).content_hash =
        calculate_content_hash (testsChunkOf pp fp tf ex now).content) ∧
    (∀ pp oid an ae ds msg fm mj now,
      (commitChunkOf pp oid an ae ds msg fm mj now).content_hash =
        calculate_content_hash (commitChunkOf pp oid an ae ds msg fm mj now).content) ∧
    (∀ pp fp content dI cI now, (callgraphData pp fp content dI cI now).2.content_hash =
        calculate_content_hash (callgraphData pp fp content dI cI now).2.content) ∧
    (∀ pp fp root he now, (astData pp fp root he now).2.content_hash =
        calculate_content_hash (astData pp fp root he now).2.content ∧
      (astData pp fp root he now).2.content = (serialize_ast_node root 0 ("", 0, 0)).1) ∧
    (∀ s, (calculate_content_hash s).length = 64 ∧
      ∀ ch ∈ (calculate_content_hash s).data,
        ch.isDigit = true ∨ ('a' ≤ ch ∧ ch ≤ 'f')) := by
  refine ⟨fun _ _ _ _ => ⟨rfl, rfl⟩, fun _ _ _ _ => rfl, fun _ _ _ _ => rfl,
    fun _ _ _ _ _ => rfl, fun _ _ _ _ _ _ _ _ _ => rfl, fun _ _ _ _ _ _ => rfl,
    fun _ _ _ _ _ => ⟨rfl, rfl⟩, fun s => ⟨?_, ?_⟩⟩
  · show (bytesToHex (Sha256.digest (strBytes s))).length = 64
    rw [bytesToHex_length, digest_length]
  · exact bytesToHex_chars _


/-- The SQL `MAX` fold agrees with `List.max?`. -/
theorem sqlMax_eq_max? (l : List Int) : sqlMax l = l.max? := by
  cases l with
  | nil => rfl
  | cons a t =>
    show List.foldl _ (some a) t = some (t.foldl max a)
    induction t generalizing a with
    | nil => rfl
    | cons b u ih => simpa using ih (max a b)

/-- `MAX` over a list extended on the right. -/
theorem sqlMax_append (l : List Int) (x : Int) :
    sqlMax (l ++ [x]) =
      some (match sqlMax l with | none => x | some m => max m x) := by
  simp only [sqlMax, List.foldl_append, List.foldl_cons, List.foldl_nil]
  cases h : List.foldl (fun acc v => match acc with
    | none => some v
    | some m => some (max m v)) none l <;> simp [h]

/-- `find?` looks at the left part of an append first. -/
theorem find?_append_some {α : Type} {p : α → Bool} {l₁ : List α} (l₂ : List α)
    {x : α} (h : l₁.find? p = some x) : (l₁ ++ l₂).find? p = some x := by
  induction l₁ with
  | nil => cases h
  | cons a t ih =>
    rw [List.find?_cons] at h
    rw [List.cons_append, List.find?_cons]
    cases hp : p a
    · simp only [hp] at h ⊢
      exact ih h
    · simp only [hp] at h ⊢
      exact h

/-- A successful `create_master_snapshot_with_git` allocates exactly
`get_next_master_version`, appends that version to the project's master
list, and leaves agent minors and earlier `find?` results unchanged. -/
theorem create_master_ok {db : SnapDb} {git : GitState} {P um cid : String}
    {cf : List String} {now : Nat} {db' : SnapDb} {git' : GitState} {sid : Nat} {v : Int}
    (h : create_master_snapshot_with_git db git P um cid cf now = .ok (db', git', sid, v)) :
    v = get_next_master_version db P ∧
    masterVersions db' P = masterVersions db P ++ [v] ∧
    (∀ Q N, agentMinors db' Q N = agentMinors db Q N) ∧
    (∀ (q : SnapshotRow → Bool) (x : SnapshotRow),
      db.rows.find? q = some x → db'.rows.find? q = some x) := by
  unfold create_master_snapshot_with_git at h
  by_cases htag :
      ((git.tags.map Prod.fst).contains ("v" ++ toString (get_next_master_version db P))) = true
  · simp only [htag, if_true] at h
    cases h
  · simp only [htag, if_false, Bool.false_eq_true, create_snapshot] at h
    simp only [Except.ok.injEq, Prod.mk.injEq] at h
    obtain ⟨hdb, _hgit, _hsid, hv⟩ := h
    subst hv
    refine ⟨rfl, ?_, ?_, ?_⟩
    · rw [← hdb]
      simp [masterVersions, List.filter_append]
    · intro Q N
      rw [← hdb]
      simp [agentMinors, List.filter_append]
    · intro q x hx
      rw [← hdb]
      exact find?_append_some _ hx

/-- The version sequence `1, 2, …, k`. -/
def firstVersions (k : Nat) : List Int := (List.range k).map (fun (i : Nat) => (i : Int) + 1)

theorem firstVersions_succ (k : Nat) :
    firstVersions (k + 1) = firstVersions k ++ [(k : Int) + 1] := by
  simp [firstVersions, List.range_succ]

theorem firstVersions_le (n : Nat) (m : Int) (hm : m ∈ firstVersions n) :
    m ≤ (n : Int) := by
  obtain ⟨i, hi, hmi⟩ := List.mem_map.mp hm
  have := List.mem_range.mp hi
  have hin : (i : Int) < (n : Int) := by exact_mod_cast this
  omega

/-- The master-creation sequence: `k` successive
`create_master_snapshot_with_git` calls, collecting allocated versions. -/
def iterate_masters (P : String) : Nat → SnapDb → GitState →
    Except String (SnapDb × GitState × List Int)
  | 0, db, git => .ok (db, git, [])
  | n + 1, db, git =>
    match iterate_masters P n db git with
    | .error e => .error e
    | .ok (db1, git1, vs) =>
      match create_master_snapshot_with_git db1 git1 P "m" ("c" ++ toString n) [] 0 with
      | .error e => .error e
      | .ok (db2, git2, _sid, v) => .ok (db2, git2, vs ++ [v])

/-- Invariant of the master-creation sequence: starting from a project
with no master snapshots, after `k` successful creations the allocated
versions are `1..k` and the next allocation is `k+1`. -/
theorem iterate_masters_spec (P : String) (db : SnapDb) (git : GitState)
    (hempty : masterVersions db P = []) :
    ∀ (k : Nat) (db' : SnapDb) (git' : GitState) (vs : List Int),
      iterate_masters P k db git = .ok (db', git', vs) →
      vs = firstVersions k ∧
      get_next_master_version db' P = (k : Int) + 1 ∧
      masterVersions db' P = firstVersions k := by
  intro k
  induction k with
  | zero =>
    intro db' git' vs h
    simp only [iterate_masters, Except.ok.injEq, Prod.mk.injEq] at h
    obtain ⟨h1, _h2, h3⟩ := h
    subst h1; subst h3
    refine ⟨rfl, ?_, by simpa [firstVersions] using hempty⟩
    simp [get_next_master_version, hempty, sqlMax]
  | succ n ih =>
    intro db' git' vs h
    simp only [iterate_masters] at h
    cases hit : iterate_masters P n db git with
    | error e => simp only [hit] at h; cases h
    | ok t =>
      obtain ⟨db1, git1, vs1⟩ := t
      simp only [hit] at h
      obtain ⟨hvs1, hnext1, hmv1⟩ := ih db1 git1 vs1 hit
      cases hcr : create_master_snapshot_with_git db1 git1 P "m" ("c" ++ toString n) [] 0 with
      | error e => simp only [hcr] at h; cases h
      | ok t2 =>
        obtain ⟨db2, git2, sid2, v2⟩ := t2
        simp only [hcr, Except.ok.injEq, Prod.mk.injEq] at h
        obtain ⟨hdb2, _hgit2, hvs⟩ := h
        obtain ⟨hv2, hmv2, _hag2, _hf2⟩ := create_master_ok hcr
        subst hdb2
        have hvval : v2 = (n : Int) + 1 := by rw [hv2, hnext1]
        refine ⟨?_, ?_, ?_⟩
        · rw [← hvs, hvs1, hvval, firstVersions_succ]
        · rw [get_next_master_version, hmv2, hmv1, hvval, sqlMax_append]
          cases hsm : sqlMax (firstVersions n) with
          | none => simp
          | some m =>
            have hm : m ≤ (n : Int) + 1 := by
              rw [sqlMax_eq_max?] at hsm
              have hmem := List.max?_mem (@max_choice Int _) hsm
              have := firstVersions_le n m hmem
              omega
            simp only [Option.getD_some, max_eq_right hm]
            push_cast
            ring
        · rw [hmv2, hmv1, hvval, firstVersions_succ]

/-- A successful `create_agent_snapshot_with_git` allocates exactly
`get_next_agent_version` under the parent master's `version_major`,
appends that minor to the project's agent list for that major, and leaves
earlier `find?` results unchanged. -/
theorem create_agent_ok {db : SnapDb} {git : GitState} {P msg cid : String}
    {mid : Nat} {ovr : Option (List String)} {rcf : List String} {now : Nat}
    {db' : SnapDb} {git' : GitState} {sid : Nat} {mv av : Int} {mrow : SnapshotRow}
    (hfind : db.rows.find? (fun r => r.id = mid) = some mrow)
    (h : create_agent_snapshot_with_git db git P mid msg ovr cid rcf now =
      .ok (db', git', sid, mv, av)) :
    mv = mrow.version_major ∧
    av = get_next_agent_version db P mrow.version_major ∧
    agentMinors db' P mrow.version_major = agentMinors db P mrow.version_major ++ [av] ∧
    (∀ Q, masterVersions db' Q = masterVersions db Q) ∧
    (∀ (q : SnapshotRow → Bool) (x : SnapshotRow),
      db.rows.find? q = some x → db'.rows.find? q = some x) := by
  unfold create_agent_snapshot_with_git at h
  rw [hfind] at h
  cases hgc : mrow.git_commit_hash with
  | none => simp only [hgc] at h; cases h
  | some hash =>
    simp only [hgc] at h
    by_cases hc1 : (git.commits.contains hash) = true
    · simp only [hc1, Bool.not_true, if_false, Bool.false_eq_true] at h
      by_cases hc2 : ((git.branches.map Prod.fst).contains
          ("agent/v" ++ toString mrow.version_major ++ "." ++
            toString (get_next_agent_version db P mrow.version_major))) = true
      · simp only [hc2, if_true] at h
        cases h
      · simp only [hc2, if_false, Bool.false_eq_true] at h
        by_cases hc3 : ((git.tags.map Prod.fst).contains
            ("v" ++ toString mrow.version_major ++ "." ++
              toString (get_next_agent_version db P mrow.version_major))) = true
        · simp only [hc3, if_true] at h
          cases h
        · simp only [hc3, if_false, Bool.false_eq_true, create_snapshot] at h
          simp only [Except.ok.injEq, Prod.mk.injEq] at h
          obtain ⟨hdb, _hgit, _hsid, hmv, hav⟩ := h
          subst hmv; subst hav
          refine ⟨rfl, rfl, ?_, ?_, ?_⟩
          · rw [← hdb]
            simp [agentMinors, List.filter_append]
          · intro Q
            rw [← hdb]
            simp [masterVersions, List.filter_append]
          · intro q x hx
            rw [← hdb]
            exact find?_append_some _ hx
    · simp only [hc1, Bool.not_false, if_true] at h
      cases h

/-- The agent-creation sequence under one master snapshot: `k` successive
`create_agent_snapshot_with_git` calls, collecting allocated minors. -/
def iterate_agents (P : String) (mid : Nat) : Nat → SnapDb → GitState →
    Except String (SnapDb × GitState × List Int)
  | 0, db, git => .ok (db, git, [])
  | n + 1, db, git =>
    match iterate_agents P mid n db git with
    | .error e => .error e
    | .ok (db1, git1, vs) =>
      match create_agent_snapshot_with_git db1 git1 P mid "a" none
          ("d" ++ toString n) [] 0 with
      | .error e => .error e
      | .ok (db2, git2, _sid, _mv, av) => .ok (db2, git2, vs ++ [av])

/-- Invariant of the agent-creation sequence: starting with no agent
snapshots under master version `M`, after `k` successful creations the
allocated minors are `1..k` and the next allocation is `k+1`. -/
theorem iterate_agents_spec (P : String) (mid : Nat) (db : SnapDb) (git : GitState)
    (mrow : SnapshotRow)
    (hfind : db.rows.find? (fun r => r.id = mid) = some mrow)
    (hempty : agentMinors db P mrow.version_major = []) :
    ∀ (k : Nat) (db' : SnapDb) (git' : GitState) (vs : List Int),
      iterate_agents P mid k db git = .ok (db', git', vs) →
      vs = firstVersions k ∧
      get_next_agent_version db' P mrow.version_major = (k : Int) + 1 ∧
      agentMinors db' P mrow.version_major = firstVersions k ∧
      db'.rows.find? (fun r => r.id = mid) = some mrow := by
  intro k
  induction k with
  | zero =>
    intro db' git' vs h
    simp only [iterate_agents, Except.ok.injEq, Prod.mk.injEq] at h
    obtain ⟨h1, _h2, h3⟩ := h
    subst h1; subst h3
    refine ⟨rfl, ?_, by simpa [firstVersions] using hempty, hfind⟩
    simp [get_next_agent_version, hempty, sqlMax]
  | succ n ih =>
    intro db' git' vs h
    simp only [iterate_agents] at h
    cases hit : iterate_agents P mid n db git with
    | error e => simp only [hit] at h; cases h
    | ok t =>
      obtain ⟨db1, git1, vs1⟩ := t
      simp only [hit] at h
      obtain ⟨hvs1, hnext1, hmv1, hfind1⟩ := ih db1 git1 vs1 hit
      cases hcr : create_agent_snapshot_with_git db1 git1 P mid "a" none
          ("d" ++ toString n) [] 0 with
      | error e => simp only [hcr] at h; cases h
      | ok t2 =>
        obtain ⟨db2, git2, sid2, mv2, av2⟩ := t2
        simp only [hcr, Except.ok.injEq, Prod.mk.injEq] at h
        obtain ⟨hdb2, _hgit2, hvs⟩ := h
        obtain ⟨_hmv2, hav2, hmin2, _hmast2, hf2⟩ := create_agent_ok hfind1 hcr
        subst hdb2
        have hvval : av2 = (n : Int) + 1 := by rw [hav2, hnext1]
        refine ⟨?_, ?_, ?_, hf2 _ _ hfind1⟩
        · rw [← hvs, hvs1, hvval, firstVersions_succ]
        · rw [get_next_agent_version, hmin2, hmv1, hvval, sqlMax_append]
          cases hsm : sqlMax (firstVersions n) with
          | none => simp
          | some m =>
            have hm : m ≤ (n : Int) + 1 := by
              rw [sqlMax_eq_max?] at hsm
              have hmem := List.max?_mem (@max_choice Int _) hsm
              have := firstVersions_le n m hmem
              omega
            simp only [Option.getD_some, max_eq_right hm]
            push_cast
            ring
        · rw [hmin2, hmv1, hvval, firstVersions_succ]

/-- C3: version allocation.  `get_next_master_version` is
`1 + MAX(version_major)` over the project's master snapshots (`1` when
there are none); `get_next_agent_version` is `1 + MAX(version_minor)` over
the project's agent snapshots under the given major (`1` when there are
none); and successive master creations allocate `1, 2, …, k`, as do
successive agent creations under one master. -/
theorem version_allocation (db : SnapDb) (git : GitState) (P : String) (M : Int) (mid : Nat) :
    get_next_master_version db P = ((masterVersions db P).max?.getD 0) + 1 ∧
    (masterVersions db P = [] → get_next_master_version db P = 1) ∧
    get_next_agent_version db P M = ((agentMinors db P M).max?.getD 0) + 1 ∧
    (agentMinors db P M = [] → get_next_agent_version db P M = 1) ∧
    (∀ (k : Nat) (db' : SnapDb) (git' : GitState) (vs : List Int),
      masterVersions db P = [] →
      iterate_masters P k db git = .ok (db', git', vs) →
      vs = firstVersions k) ∧
    (∀ (k : Nat) (db' : SnapDb) (git' : GitState) (vs : List Int) (mrow : SnapshotRow),
      db.rows.find? (fun r => r.id = mid) = some mrow →
      mrow.version_major = M →
      agentMinors db P M = [] →
      iterate_agents P mid k db git = .ok (db', git', vs) →
      vs = firstVersions k) := by
  refine ⟨?_, ?_, ?_, ?_, ?_, ?_⟩
  · rw [get_next_master_version, sqlMax_eq_max?]
  · intro h
    rw [get_next_master_version, h]
    rfl
  · rw [get_next_agent_version, sqlMax_eq_max?]
  · intro h
    rw [get_next_agent_version, h]
    rfl
  · intro k db' git' vs hempty hit
    exact (iterate_masters_spec P db git hempty k db' git' vs hit).1
  · intro k db' git' vs mrow hfind hM hempty hit
    rw [← hM] at hempty
    exact (iterate_agents_spec P mid db git mrow hfind hempty k db' git' vs hit).1

/-- Fixture: an empty snapshot table. -/
def wSnapDb0 : SnapDb := ⟨[], 1⟩

/-- Fixture: an initialized working copy with a root commit on `main`. -/
def wGit0 : GitState :=
  { commits := ["c0"], headCommit := "c0", headRef := "refs/heads/main",
    branches := [("main", "c0")], tags := [] }

/-- Fixture: a master snapshot row `V1` with a valid commit hash. -/
def wMasterRow : SnapshotRow :=
  { id := 1, project_path := "p", snapshot_type := "master",
    parent_snapshot_id := none, message := "Master snapshot V1: m",
    user_message := some "m", changed_files := [], diff_summary := none,
    metadata := none, git_commit_hash := some "c0", git_tag := some "v1",
    git_branch := some "main", version_major := 1, version_minor := none,
    created_at := 0 }

/-- Fixture: a snapshot table holding just the `V1` master row. -/
def wSnapDb1 : SnapDb := ⟨[wMasterRow], 2⟩

/-- Witness for C3: two master creations from an empty project allocate
`[1, 2]`, and two agent creations under master `V1` allocate minors
`[1, 2]`. -/
theorem version_allocation_witness :
    (iterate_masters "p" 2 wSnapDb0 wGit0).map (fun t => t.2.2) = .ok (firstVersions 2) ∧
    (iterate_agents "p" 1 2 wSnapDb1 wGit0).map (fun t => t.2.2) = .ok (firstVersions 2) ∧
    get_next_master_version wSnapDb0 "p" = 1 ∧
    get_next_agent_version wSnapDb1 "p" 1 = 1 := by
  refine ⟨?_, ?_, ?_, ?_⟩
  · cases hit : iterate_masters "p" 2 wSnapDb0 wGit0 with
    | error e =>
      have hok : (iterate_masters "p" 2 wSnapDb0 wGit0).toOption.isSome = true := by decide
      rw [hit] at hok
      simp [Except.toOption] at hok
    | ok t =>
      obtain ⟨db', git', vs⟩ := t
      have h := (version_allocation wSnapDb0 wGit0 "p" 1 1).2.2.2.2.1 2 db' git' vs
        (by decide) hit
      simp [Except.map, h]
  · cases hit : iterate_agents "p" 1 2 wSnapDb1 wGit0 with
    | error e =>
      have hok : (iterate_agents "p" 1 2 wSnapDb1 wGit0).toOption.isSome = true := by decide
      rw [hit] at hok
      simp [Except.toOption] at hok
    | ok t =>
      obtain ⟨db', git', vs⟩ := t
      have h := (version_allocation wSnapDb1 wGit0 "p" 1 1).2.2.2.2.2 2 db' git' vs
        wMasterRow (by decide) (by decide) (by decide) hit
      simp [Except.map, h]
  · exact (version_allocation wSnapDb0 wGit0 "p" 1 1).2.1 (by decide)
  · exact (version_allocation wSnapDb1 wGit0 "p" 1 1).2.2.2.1 (by decide)

/-- C4: for a master snapshot `S`, rewind deletes exactly the rows with
`project = S.project ∧ type = "master" ∧ version_major > S.version_major`:
the database keeps precisely the rows outside that set (in particular
every agent-type row, of any project), and the working copy's HEAD moves
to `S`'s commit with branches and tags untouched. -/
theorem rewind_master_deletes (db : SnapDb) (git : GitState) (sid : Nat)
    (s : SnapshotRow) (hash : String)
    (hfind : db.rows.find? (fun r => r.id = sid) = some s)
    (hmaster : s.snapshot_type = "master")
    (hhash : s.git_commit_hash = some hash)
    (hc : git.commits.contains hash = true) :
    rewind_master_to_snapshot_with_git db git sid =
      .ok (⟨db.rows.filter (fun r =>
            !(r.project_path = s.project_path && r.snapshot_type = "master" &&
              s.version_major < r.version_major)), db.nextId⟩,
           { git with headCommit := hash }) ∧
    (∀ r, r ∈ db.rows.filter (fun r =>
            !(r.project_path = s.project_path && r.snapshot_type = "master" &&
              s.version_major < r.version_major)) ↔
          r ∈ db.rows ∧
          ¬(r.project_path = s.project_path ∧ r.snapshot_type = "master" ∧
            s.version_major < r.version_major)) ∧
    (∀ r ∈ db.rows, r.snapshot_type = "agent" →
      r ∈ db.rows.filter (fun r =>
            !(r.project_path = s.project_path && r.snapshot_type = "master" &&
              s.version_major < r.version_major))) := by
  have hiff : ∀ r, r ∈ db.rows.filter (fun r =>
      !(r.project_path = s.project_path && r.snapshot_type = "master" &&
        s.version_major < r.version_major)) ↔
      r ∈ db.rows ∧
      ¬(r.project_path = s.project_path ∧ r.snapshot_type = "master" ∧
        s.version_major < r.version_major) := by
    intro r
    rw [List.mem_filter]
    simp [and_assoc]
    tauto
  refine ⟨?_, hiff, ?_⟩
  · unfold rewind_master_to_snapshot_with_git
    rw [hfind]
    simp only [hmaster, hhash, hc, Bool.not_true, ne_eq, not_true_eq_false,
      if_false, Bool.false_eq_true]
  · intro r hr hag
    exact (hiff r).mpr ⟨hr, fun hcontra => by
      rw [hag] at hcontra
      exact absurd hcontra.2.1 (by decide)⟩

/-- Fixture: an agent snapshot row `V1.1`. -/
def wAgentRow : SnapshotRow :=
  { id := 2, project_path := "p", snapshot_type := "agent",
    parent_snapshot_id := some 1, message := "Agent snapshot V1.1: a",
    user_message := none, changed_files := [], diff_summary := none,
    metadata := none, git_commit_hash := some "c1", git_tag := some "v1.1",
    git_branch := some "agent/v1.1", version_major := 1, version_minor := some 1,
    created_at := 0 }

/-- Fixture: a master `V2` row of the same project. -/
def wMasterRow2 : SnapshotRow :=
  { wMasterRow with
      id := 3, version_major := 2, git_tag := some "v2",
      git_commit_hash := some "c2", message := "Master snapshot V2: m2",
      user_message := some "m2" }

/-- Fixture: snapshot table with masters `V1`, `V2` and agent `V1.1`. -/
def wSnapDb3 : SnapDb := ⟨[wMasterRow, wAgentRow, wMasterRow2], 4⟩

/-- Fixture: working copy holding all three snapshot commits. -/
def wGit3 : GitState :=
  { commits := ["c2", "c1", "c0"], headCommit := "c2", headRef := "refs/heads/main",
    branches := [("main", "c2"), ("agent/v1.1", "c1")],
    tags := [("v1", "c0"), ("v1.1", "c1"), ("v2", "c2")] }

/-- Witness for C4: rewinding to `V1` deletes master `V2` and keeps the
`V1` master and the `V1.1` agent row. -/
theorem rewind_master_deletes_witness :
    rewind_master_to_snapshot_with_git wSnapDb3 wGit3 1 =
      .ok (⟨wSnapDb3.rows.filter (fun r =>
            !(r.project_path = wMasterRow.project_path &&
              r.snapshot_type = "master" &&
              wMasterRow.version_major < r.version_major)), wSnapDb3.nextId⟩,
           { wGit3 with headCommit := "c0" }) ∧
    wAgentRow ∈ wSnapDb3.rows.filter (fun r =>
            !(r.project_path = wMasterRow.project_path &&
              r.snapshot_type = "master" &&
              wMasterRow.version_major < r.version_major)) :=
  have h := rewind_master_deletes wSnapDb3 wGit3 1 wMasterRow "c0"
    (by decide) (by decide) (by decide) (by decide)
  ⟨h.1, h.2.2 wAgentRow (by decide) (by decide)⟩

/-- C5: rewinding to a snapshot that is not a master fails with the typed
error before any Git reset or row deletion: the call returns the error,
producing no successor state, so database and working copy are exactly as
before. -/
theorem rewind_non_master_error (db : SnapDb) (git : GitState) (sid : Nat)
    (s : SnapshotRow)
    (hfind : db.rows.find? (fun r => r.id = sid) = some s)
    (hnm : s.snapshot_type ≠ "master") :
    rewind_master_to_snapshot_with_git db git sid =
      .error "Can only rewind to master snapshots" ∧
    (∀ db' git', rewind_master_to_snapshot_with_git db git sid ≠ .ok (db', git')) := by
  have h1 : rewind_master_to_snapshot_with_git db git sid =
      .error "Can only rewind to master snapshots" := by
    unfold rewind_master_to_snapshot_with_git
    rw [hfind]
    simp [hnm]
  exact ⟨h1, fun db' git' hok => by rw [h1] at hok; cases hok⟩

/-- Witness for C5: rewinding to the agent snapshot `V1.1` errors. -/
theorem rewind_non_master_error_witness :
    rewind_master_to_snapshot_with_git wSnapDb3 wGit3 2 =
      .error "Can only rewind to master snapshots" :=
  (rewind_non_master_error wSnapDb3 wGit3 2 wAgentRow (by decide) (by decide)).1

/-- `upsert_error_log` on a table with no unresolved match: INSERT branch,
count 1, `first_seen = last_seen = now`, unresolved, fresh id. -/
theorem upsert_error_log_insert (db : ErrDb) (P t m : String)
    (fp en st : Option String) (sidp : Option Nat) (now : Nat)
    (h : ∀ r ∈ db.rows, errMatches P t m r = false) :
    upsert_error_log db P t m fp en st sidp now =
      (⟨db.rows ++ [⟨db.nextId, P, sidp, fp, en, t, m, st, 1, now, now, false⟩],
        db.nextId + 1⟩, db.nextId) := by
  have hnone : db.rows.find? (errMatches P t m) = none :=
    List.find?_eq_none.mpr (fun x hx => by simp [h x hx])
  simp [upsert_error_log, hnone]

/-- `upsert_error_log` on a table whose only unresolved match is the last
row (with an id no other row shares): UPDATE branch, count bumped,
`last_seen` refreshed, id returned. -/
theorem upsert_error_log_update (base : List ErrorRow) (nid : Nat) (P t m : String)
    (row : ErrorRow) (fp en st : Option String) (sidp : Option Nat) (now : Nat)
    (hbase : ∀ r ∈ base, errMatches P t m r = false)
    (hbid : ∀ r ∈ base, r.id ≠ row.id)
    (hrow : errMatches P t m row = true) :
    upsert_error_log ⟨base ++ [row], nid⟩ P t m fp en st sidp now =
      (⟨base ++ [{ row with
                     occurrence_count := row.occurrence_count + 1,
                     last_seen := now }], nid⟩, row.id) := by
  have hbnone : base.find? (errMatches P t m) = none :=
    List.find?_eq_none.mpr (fun x hx => by simp [hbase x hx])
  have hfind : (base ++ [row]).find? (errMatches P t m) = some row := by
    rw [find?_eq_head?_filter, List.filter_append,
      List.filter_eq_nil_iff.mpr (fun x hx => by simp [hbase x hx])]
    simp [hrow]
  simp only [upsert_error_log, hfind, List.map_append]
  have hb : base.map (fun r => if r.id = row.id then
      { r with occurrence_count := r.occurrence_count + 1, last_seen := now }
    else r) = base := by
    conv_rhs => rw [← List.map_id base]
    exact List.map_congr_left (fun r hr => by simp [hbid r hr])
  rw [hb]
  simp

/-- The run of `n` identical `upsert_error_log` calls against a table
whose only unresolved match is the trailing row. -/
theorem log_error_times_run (base : List ErrorRow) (nid : Nat) (P t m : String)
    (row : ErrorRow)
    (hbase : ∀ r ∈ base, errMatches P t m r = false)
    (hbid : ∀ r ∈ base, r.id ≠ row.id)
    (hrow : errMatches P t m row = true) :
    ∀ ts : List Nat,
      log_error_times ⟨base ++ [row], nid⟩ P t m ts =
        ⟨base ++ [{ row with
            occurrence_count := row.occurrence_count + ts.length,
            last_seen := ts.getLastD row.last_seen }], nid⟩ := by
  intro ts
  induction ts generalizing row with
  | nil =>
    show (⟨base ++ [row], nid⟩ : ErrDb) = _
    simp
  | cons t0 rest ih =>
    show log_error_times
      (upsert_error_log ⟨base ++ [row], nid⟩ P t m none none none none t0).1 P t m rest = _
    rw [upsert_error_log_update base nid P t m row none none none none t0 hbase hbid hrow]
    rw [ih { row with occurrence_count := row.occurrence_count + 1, last_seen := t0 }
      hbid hrow]
    rw [List.getLastD_cons, List.length_cons]
    have harith : row.occurrence_count + 1 + rest.length =
        row.occurrence_count + (rest.length + 1) := by omega
    rw [harith]

/-- C6: `n` identical `upsert_error_log` calls against a table with no
matching unresolved row leave exactly one new row, with
`occurrence_count = n`, `first_seen` at the first call and `last_seen`
bumped to the last call; after `resolve_error` marks it resolved, the next
identical call inserts a fresh unresolved row with count 1 — dedup applies
only to unresolved rows. -/
theorem error_log_dedup (db : ErrDb) (P t msg : String) (t0 : Nat) (rest : List Nat)
    (tnext : Nat)
    (hclean : ∀ r ∈ db.rows, errMatches P t msg r = false)
    (hfresh : ∀ r ∈ db.rows, r.id < db.nextId) :
    (log_error_times db P t msg (t0 :: rest)).rows =
      db.rows ++ [⟨db.nextId, P, none, none, none, t, msg, none,
        rest.length + 1, t0, rest.getLastD t0, false⟩] ∧
    (resolve_error (log_error_times db P t msg (t0 :: rest)) db.nextId).rows =
      db.rows ++ [⟨db.nextId, P, none, none, none, t, msg, none,
        rest.length + 1, t0, rest.getLastD t0, true⟩] ∧
    (upsert_error_log (resolve_error (log_error_times db P t msg (t0 :: rest)) db.nextId)
        P t msg none none none none tnext).1.rows =
      db.rows ++ [⟨db.nextId, P, none, none, none, t, msg, none,
          rest.length + 1, t0, rest.getLastD t0, true⟩] ++
        [⟨db.nextId + 1, P, none, none, none, t, msg, none, 1, tnext, tnext, false⟩] := by
  have hfirst : log_error_times db P t msg (t0 :: rest) =
      ⟨db.rows ++ [⟨db.nextId, P, none, none, none, t, msg, none,
        rest.length + 1, t0, rest.getLastD t0, false⟩], db.nextId + 1⟩ := by
    show log_error_times
      (upsert_error_log db P t msg none none none none t0).1 P t msg rest = _
    rw [upsert_error_log_insert db P t msg none none none none t0 hclean]
    rw [log_error_times_run db.rows (db.nextId + 1) P t msg
      (⟨db.nextId, P, none, none, none, t, msg, none, 1, t0, t0, false⟩)
      hclean (fun r hr => Nat.ne_of_lt (hfresh r hr)) (by simp [errMatches]) rest]
    simp [Nat.add_comm]
  have hresolved : resolve_error (log_error_times db P t msg (t0 :: rest)) db.nextId =
      ⟨db.rows ++ [⟨db.nextId, P, none, none, none, t, msg, none,
        rest.length + 1, t0, rest.getLastD t0, true⟩], db.nextId + 1⟩ := by
    rw [hfirst]
    show (⟨(db.rows ++ [_]).map _, db.nextId + 1⟩ : ErrDb) = _
    rw [List.map_append]
    have hb : db.rows.map (fun r => if r.id = db.nextId then
        { r with is_resolved := true } else r) = db.rows := by
      conv_rhs => rw [← List.map_id db.rows]
      exact List.map_congr_left (fun r hr => by
        simp [Nat.ne_of_lt (hfresh r hr)])
    rw [hb]
    simp
  refine ⟨by rw [hfirst], by rw [hresolved], ?_⟩
  have hnomatch : ∀ r ∈ db.rows ++ [(⟨db.nextId, P, none, none, none, t, msg, none,
      rest.length + 1, t0, rest.getLastD t0, true⟩ : ErrorRow)],
      errMatches P t msg r = false := by
    intro r hr
    rcases List.mem_append.mp hr with hr | hr
    · exact hclean r hr
    · simp only [List.mem_singleton] at hr
      subst hr
      simp [errMatches]
  have hub := upsert_error_log_insert
    ⟨db.rows ++ [⟨db.nextId, P, none, none, none, t, msg, none,
      rest.length + 1, t0, rest.getLastD t0, true⟩], db.nextId + 1⟩
    P t msg none none none none tnext hnomatch
  rw [hresolved, hub]

/-- Fixture: an empty error-log table. -/
def wErrDb0 : ErrDb := ⟨[], 1⟩

/-- Witness for C6: log `(Panic, x)` three times, resolve, log again. -/
theorem error_log_dedup_witness :
    (log_error_times wErrDb0 "p" "Panic" "x" [1, 2, 3]).rows =
      [⟨1, "p", none, none, none, "Panic", "x", none, 3, 1, 3, false⟩] ∧
    (upsert_error_log (resolve_error (log_error_times wErrDb0 "p" "Panic" "x" [1, 2, 3]) 1)
        "p" "Panic" "x" none none none none 9).1.rows =
      [⟨1, "p", none, none, none, "Panic", "x", none, 3, 1, 3, true⟩,
       ⟨2, "p", none, none, none, "Panic", "x", none, 1, 9, 9, false⟩] := by
  have h := error_log_dedup wErrDb0 "p" "Panic" "x" 1 [2, 3] 9
    (by decide) (by decide)
  exact ⟨h.1, h.2.2⟩

/-- Every `snapshot_id` recorded by `upsertMany` is the one it was
passed. -/
theorem upsertMany_trace (chunks : List Chunk) :
    ∀ (cdb : ChunkDb) (sid : Option Nat) (now : Nat) (counts : ReindexCounts)
      (trace : List (Option Nat)),
      (∀ x ∈ trace, x = sid) →
      ∀ x ∈ (upsertMany cdb chunks sid now counts trace).2.2, x = sid := by
  induction chunks with
  | nil => intro cdb sid now counts trace h x hx; exact h x hx
  | cons c rest ih =>
    intro cdb sid now counts trace h x hx
    simp only [upsertMany] at hx
    exact ih _ sid now _ (trace ++ [sid])
      (fun y hy => by
        rcases List.mem_append.mp hy with hy | hy
        · exact h y hy
        · simpa using hy) x hx

/-- Every `snapshot_id` recorded while reindexing one file is the one the
call was passed. -/
theorem reindexOneFile_trace (env : ReindexEnv) (cdb : ChunkDb) (P f : String)
    (sid : Option Nat) (now : Nat) (counts : ReindexCounts)
    (trace : List (Option Nat)) (h : ∀ x ∈ trace, x = sid) :
    ∀ x ∈ (reindexOneFile env cdb P f sid now counts trace).2.2, x = sid := by
  unfold reindexOneFile
  by_cases hex : env.pathExists (P ++ "/" ++ f) = true
  · simp only [hex, Bool.not_true, if_false, Bool.false_eq_true]
    cases hrd : env.readFile (P ++ "/" ++ f) with
    | error e => simp only [hrd]; simpa using h
    | ok content =>
      simp only [hrd]
      cases hraw : env.rawChunk (P ++ "/" ++ f) content with
      | ok chunk =>
        simp only [hraw]
        cases hast : env.astChunks (P ++ "/" ++ f) content with
        | ok cs =>
          simp only [hast]
          exact upsertMany_trace cs _ sid now _ _
            (upsertMany_trace [chunk] cdb sid now counts trace h)
        | error e =>
          simp only [hast]
          exact upsertMany_trace [chunk] cdb sid now counts trace h
      | error e =>
        simp only [hraw]
        cases hast : env.astChunks (P ++ "/" ++ f) content with
        | ok cs =>
          simp only [hast]
          exact upsertMany_trace cs _ sid now _ _ h
        | error e2 => simp only [hast]; exact h
  · simp only [Bool.not_eq_true] at hex
    simp only [hex, Bool.not_false, if_true]
    exact h

/-- Every `snapshot_id` recorded by a whole incremental reindex is the one
the call was passed. -/
theorem reindex_changed_files_trace (env : ReindexEnv) (cdb : ChunkDb) (P : String)
    (files : List String) (sid : Option Nat) (now : Nat) :
    ∀ x ∈ (reindex_changed_files env cdb P files sid now).2.2, x = sid := by
  unfold reindex_changed_files
  suffices h : ∀ (acc : ChunkDb × ReindexCounts × List (Option Nat)),
      (∀ x ∈ acc.2.2, x = sid) →
      ∀ x ∈ (files.foldl (fun acc f =>
        reindexOneFile env acc.1 P f sid now acc.2.1 acc.2.2) acc).2.2, x = sid by
    exact h (cdb, ⟨0, 0, []⟩, []) (by simp)
  induction files with
  | nil => intro acc h x hx; exact h x hx
  | cons f rest ih =>
    intro acc h x hx
    simp only [List.foldl_cons] at hx
    refine ih _ ?_ x hx
    intro y hy
    exact reindexOneFile_trace env acc.1 P f sid now acc.2.1 acc.2.2 h y hy

/-- C9: snapshot creation always hands the caller the new snapshot id —
for every possible outcome of the automatic reindex step, including
failure — and every `upsert_chunk` performed by the incremental reindex
carries the snapshot id it was invoked with, so the chunks it writes are
linked to the triggering snapshot. -/
theorem snapshot_reindex_contract (db : SnapDb) (git : GitState) (cdb : ChunkDb)
    (P um amsg cid : String) (cf rcf : List String) (now : Nat) (mid : Nat) :
    (∀ (reindexFn : ChunkDb → List String → Option Nat →
        Except String (ChunkDb × ReindexCounts × List (Option Nat)))
      (db1 : SnapDb) (git1 : GitState) (sid : Nat) (v : Int),
      create_master_snapshot_with_git db git P um cid cf now = .ok (db1, git1, sid, v) →
      (create_user_snapshot db git cdb P um reindexFn cid cf now).map Prod.fst =
        .ok sid) ∧
    (∀ (reindexFn : ChunkDb → List String → Option Nat →
        Except String (ChunkDb × ReindexCounts × List (Option Nat)))
      (db1 : SnapDb) (git1 : GitState) (sid : Nat) (mv av : Int),
      create_agent_snapshot_with_git db git P mid amsg (some cf) cid rcf now =
        .ok (db1, git1, sid, mv, av) →
      (create_agent_snapshot db git cdb P amsg cf mid reindexFn cid rcf now).map Prod.fst =
        .ok sid) ∧
    (∀ (env : ReindexEnv) (files : List String) (sidp : Option Nat),
      ∀ x ∈ (reindex_changed_files env cdb P files sidp now).2.2, x = sidp) ∧
    (∀ (env : ReindexEnv) (sid' : Nat) (db1 : SnapDb) (git1 : GitState)
      (cdb' : ChunkDb) (trace : List (Option Nat)),
      create_user_snapshot db git cdb P um
        (fun c f s => .ok (reindex_changed_files env c P f s now)) cid cf now =
        .ok (sid', db1, git1, cdb', trace) →
      ∀ x ∈ trace, x = some sid') := by
  refine ⟨?_, ?_, ?_, ?_⟩
  · intro reindexFn db1 git1 sid v hcr
    unfold create_user_snapshot
    rw [hcr]
    show (Except.map Prod.fst (if _ then _ else _)) = _
    split
    · rfl
    · cases hr : reindexFn cdb
        (((db1.rows.find? (fun r => r.id = sid)).map (·.changed_files)).getD [])
        (some sid) with
      | ok t => obtain ⟨a, b, c⟩ := t; rfl
      | error e => rfl
  · intro reindexFn db1 git1 sid mv av hcr
    unfold create_agent_snapshot
    rw [hcr]
    show (Except.map Prod.fst (if _ then _ else _)) = _
    split
    · rfl
    · cases hr : reindexFn cdb cf (some sid) with
      | ok t => obtain ⟨a, b, c⟩ := t; rfl
      | error e => rfl
  · intro env files sidp
    exact reindex_changed_files_trace env cdb P files sidp now
  · intro env sid' db1 git1 cdb' trace h
    unfold create_user_snapshot at h
    cases hcr : create_master_snapshot_with_git db git P um cid cf now with
    | error e => rw [hcr] at h; cases h
    | ok t =>
      obtain ⟨dbm, gitm, sidm, vm⟩ := t
      rw [hcr] at h
      simp only [bind, Except.bind] at h
      by_cases hemp : (((dbm.rows.find? (fun r => r.id = sidm)).map
          (·.changed_files)).getD []).isEmpty = true
      · simp only [hemp, if_true, Except.ok.injEq, Prod.mk.injEq] at h
        obtain ⟨_h1, _h2, _h3, _h4, h5⟩ := h
        subst h5
        intro x hx
        cases hx
      · simp only [hemp, if_false, Bool.false_eq_true, Except.ok.injEq,
          Prod.mk.injEq] at h
        obtain ⟨hs, _h2, _h3, _h4, h5⟩ := h
        subst h5
        subst hs
        intro x hx
        have := reindex_changed_files_trace env cdb P
          (((dbm.rows.find? (fun r => r.id = sidm)).map (·.changed_files)).getD [])
          (some sidm) now x hx
        exact this

/-- Fixture: the snapshot table after the witness master creation. -/
def wSnapDbAfter : SnapDb :=
  ⟨[{ id := 1, project_path := "p", snapshot_type := "master",
      parent_snapshot_id := none, message := "Master snapshot V1: m",
      user_message := some "m", changed_files := ["f.rs"],
      diff_summary := some "1 files changed", metadata := none,
      git_commit_hash := some "c9", git_tag := some "v1",
      git_branch := some "main", version_major := 1, version_minor := none,
      created_at := 0 }], 2⟩

/-- Fixture: the working copy after the witness master creation. -/
def wGitAfter : GitState :=
  { commits := ["c9", "c0"], headCommit := "c9", headRef := "refs/heads/main",
    branches := [("main", "c0")], tags := [("v1", "c9")] }

/-- Fixture: a reindex environment whose AST constructor fails and whose
raw-source constructor succeeds. -/
def wEnv : ReindexEnv :=
  { pathExists := fun _ => true
    readFile := fun _ => .ok "use a;"
    rawChunk := fun p c => .ok (rawSourceChunkOf "p" p c 0)
    astChunks := fun _ _ => .error "no parser" }

/-- Witness for C9: a failing reindex function still yields the snapshot
id, and a concrete model reindex records exactly the new snapshot id on
its single upsert. -/
theorem snapshot_reindex_contract_witness :
    (create_user_snapshot wSnapDb0 wGit0 wDb0 "p" "m"
        (fun _ _ _ => .error "reindex blew up") "c9" ["f.rs"] 0).map Prod.fst =
      .ok 1 ∧
    (reindex_changed_files wEnv wDb0 "p" ["f.rs"] (some 1) 0).2.2 = [some 1] := by
  have h := snapshot_reindex_contract wSnapDb0 wGit0 wDb0 "p" "m" "a" "c9"
    ["f.rs"] [] 0 1
  constructor
  · have hcr : create_master_snapshot_with_git wSnapDb0 wGit0 "p" "m" "c9" ["f.rs"] 0 =
        .ok (wSnapDbAfter, wGitAfter, 1, 1) := by rfl
    exact h.1 (fun _ _ _ => .error "reindex blew up") wSnapDbAfter wGitAfter 1 1 hcr
  · have htr := h.2.2.1 wEnv ["f.rs"] (some 1)
    have hshape : (reindex_changed_files wEnv wDb0 "p" ["f.rs"] (some 1) 0).2.2.length = 1 := by
      decide
    cases hval : (reindex_changed_files wEnv wDb0 "p" ["f.rs"] (some 1) 0).2.2 with
    | nil => rw [hval] at hshape; cases hshape
    | cons a t =>
      rw [hval] at hshape htr
      cases t with
      | cons b u => simp at hshape
      | nil =>
        have := htr a (by simp)
        rw [this]

/-- The accumulator update `if depth > md then depth else md` is `max`. -/
theorem ite_gt_eq_max (md depth : Nat) :
    (if depth > md then depth else md) = max md depth := by
  split <;> omega

mutual
/-- Accumulator-to-functional refinement of `serialize_ast_node`: the
output grows by exactly the per-claim line listing, `max_depth` by the
greatest emitted depth, `node_count` by the number of emitted nodes. -/
theorem serialize_ast_node_spec : ∀ (n : TSNode) (depth : Nat) (st : String × Nat × Nat),
    serialize_ast_node n depth st =
      (st.1 ++ astText n depth, max st.2.1 (emittedMaxD n depth),
       st.2.2 + emittedCount n depth)
  | .mk kind sr er blen children, depth, ⟨s1, s2, s3⟩ => by
    rw [serialize_ast_node, astText, emittedMaxD, emittedCount, astLine]
    dsimp only
    rw [ite_gt_eq_max]
    by_cases hd : depth < 50
    · rw [if_pos hd, if_pos hd, if_pos hd, if_pos hd]
      rw [serialize_forest_spec children (depth + 1) _]
      dsimp only
      refine congrArg₂ Prod.mk ?_ (congrArg₂ Prod.mk ?_ ?_)
      · exact String.append_assoc _ _ _
      · exact Nat.max_assoc _ _ _
      · omega
    · rw [if_neg hd, if_neg hd, if_neg hd, if_neg hd]
      refine congrArg₂ Prod.mk ?_ (congrArg₂ Prod.mk ?_ ?_)
      · rw [String.append_empty]
      · rfl
      · omega
/-- Forest version of the refinement. -/
theorem serialize_forest_spec : ∀ (ns : TSForest) (depth : Nat) (st : String × Nat × Nat),
    serialize_forest ns depth st =
      (st.1 ++ astTextF ns depth, max st.2.1 (emittedMaxDF ns depth),
       st.2.2 + emittedCountF ns depth)
  | .nil, depth, ⟨s1, s2, s3⟩ => by
    rw [serialize_forest, astTextF, emittedMaxDF, emittedCountF]
    dsimp only
    refine congrArg₂ Prod.mk ?_ (congrArg₂ Prod.mk ?_ ?_)
    · rw [String.append_empty]
    · rw [Nat.max_zero]
    · rfl
  | .cons c cs, depth, ⟨s1, s2, s3⟩ => by
    rw [serialize_forest, astTextF, emittedMaxDF, emittedCountF]
    rw [serialize_ast_node_spec c depth _, serialize_forest_spec cs depth _]
    dsimp only
    refine congrArg₂ Prod.mk ?_ (congrArg₂ Prod.mk ?_ ?_)
    · exact String.append_assoc _ _ _
    · exact Nat.max_assoc _ _ _
    · omega
end

mutual
/-- The greatest emitted depth never exceeds `max depth 50`: dropped
nodes do not register in the `max_depth` statistic. -/
theorem emittedMaxD_le : ∀ (n : TSNode) (depth : Nat),
    emittedMaxD n depth ≤ max depth 50
  | .mk _ _ _ _ children, depth => by
    rw [emittedMaxD]
    by_cases hd : depth < 50
    · rw [if_pos hd]
      have hf := emittedMaxDF_le children (depth + 1)
      have h1 : max (depth + 1) 50 = 50 := by omega
      rw [h1] at hf
      omega
    · rw [if_neg hd]
      omega
/-- Forest version of the depth bound. -/
theorem emittedMaxDF_le : ∀ (ns : TSForest) (depth : Nat),
    emittedMaxDF ns depth ≤ max depth 50
  | .nil, depth => by rw [emittedMaxDF]; omega
  | .cons c cs, depth => by
    rw [emittedMaxDF]
    have h1 := emittedMaxD_le c depth
    have h2 := emittedMaxDF_le cs depth
    omega
end

/-- The metadata statistics of `generate_ast_chunks` are exactly the
emitted-node statistics, and the chunk content is the per-claim line
listing. -/
theorem astData_stats (pp fp : String) (root : TSNode) (he : Bool) (now : Nat) :
    (astData pp fp root he now).2.content = astText root 0 ∧
    (astData pp fp root he now).1.node_count = emittedCount root 0 ∧
    (astData pp fp root he now).1.max_depth = emittedMaxD root 0 := by
  have hres := serialize_ast_node_spec root 0 ("", 0, 0)
  refine ⟨?_, ?_, ?_⟩
  · show (serialize_ast_node root 0 ("", 0, 0)).1 = astText root 0
    rw [hres]
    exact String.empty_append _
  · show (serialize_ast_node root 0 ("", 0, 0)).2.2 = emittedCount root 0
    rw [hres]
    dsimp only
    exact Nat.zero_add _
  · show (serialize_ast_node root 0 ("", 0, 0)).2.1 = emittedMaxD root 0
    rw [hres]
    dsimp only
    exact Nat.zero_max _

/-- C8 (amended): the serializer emits one line per visited node of the
form `<indent><kind>:<startRow>-<endRow>` with two spaces per depth level
and ` [<kind>]` appended for leaves of byte length < 100; recursion stops
at depth 50, so nodes deeper than the cap are dropped from the
serialization — and from the statistics: `node_count` and `max_depth`
count only the emitted nodes, and `max_depth` never exceeds 50. -/
theorem ast_serializer_contract (n : TSNode) (depth : Nat) (st : String × Nat × Nat)
    (pp fp : String) (root : TSNode) (he : Bool) (now : Nat) :
    serialize_ast_node n depth st =
      (st.1 ++ astText n depth, max st.2.1 (emittedMaxD n depth),
       st.2.2 + emittedCount n depth) ∧
    (astData pp fp root he now).2.content = astText root 0 ∧
    (astData pp fp root he now).1.node_count = emittedCount root 0 ∧
    (astData pp fp root he now).1.max_depth = emittedMaxD root 0 ∧
    (astData pp fp root he now).1.max_depth ≤ 50 := by
  obtain ⟨hcontent, hcount, hmax⟩ := astData_stats pp fp root he now
  refine ⟨serialize_ast_node_spec n depth st, hcontent, hcount, hmax, ?_⟩
  rw [hmax]
  have := emittedMaxD_le root 0
  omega

/-- C8 counterexample for the claim as stated: a 52-node chain whose
deepest node sits at depth 51.  That node is dropped from the
serialization, and the metadata statistics do NOT reflect it:
`node_count` is 51, not 52, and `max_depth` is 50, not 51. -/
theorem ast_depth_cap_counterexample :
    totalNodes (chainNode 51) = 52 ∧
    (astData "p" "f.rs" (chainNode 51) false 0).1.node_count = 51 ∧
    (astData "p" "f.rs" (chainNode 51) false 0).1.max_depth = 50 ∧
    (astData "p" "f.rs" (chainNode 51) false 0).1.node_count ≠
      totalNodes (chainNode 51) ∧
    (astData "p" "f.rs" (chainNode 51) false 0).1.max_depth ≠ 51 := by
  obtain ⟨_, hcount, hmax⟩ := astData_stats "p" "f.rs" (chainNode 51) false 0
  rw [hcount, hmax]
  refine ⟨by decide, by decide, by decide, by decide, by decide⟩

/-- Inserting into the accumulated set keeps it duplicate-free. -/
theorem insertAbsent_nodup (l : List String) (x : String) (h : l.Nodup) :
    (insertAbsent l x).Nodup := by
  unfold insertAbsent
  split
  · exact h
  · rename_i hx
    simp [List.nodup_append, h, hx]

/-- The canonical `HashSet` listing is duplicate-free. -/
theorem dedupFO_nodup (l : List String) : (dedupFO l).Nodup := by
  unfold dedupFO
  suffices h : ∀ acc : List String, acc.Nodup → (l.foldl insertAbsent acc).Nodup by
    exact h [] List.nodup_nil
  induction l with
  | nil => intro acc hacc; exact hacc
  | cons a t ih =>
    intro acc hacc
    exact ih _ (insertAbsent_nodup acc a hacc)

/-- `extract_dependencies` always yields a duplicate-free list. -/
theorem extract_dependencies_nodup (content language : String) :
    (extract_dependencies content language).Nodup := by
  unfold extract_dependencies
  split_ifs <;> first
    | exact dedupFO_nodup _
    | exact List.nodup_nil

/-- C7 (amended): the call-graph chunk's metadata has `is_static = true`,
`external_calls` listing the deduplicated import set in the unspecified
`HashSet` iteration order (a permutation of the canonical listing — the
code never sorts it), and `call_count` equal to the number of deduplicated
call identifiers; the content is the two-section document listing imports
then call identifiers; and on `use std::io;` under Rust the import set is
`{"std::io"}`, on `import React from 'react';` under JavaScript it is
`{"react"}`. -/
theorem callgraph_contract (pp fp content : String) (now : Nat)
    (depIter callIter : List String → List String)
    (hdep : ∀ l, (depIter l).Perm l) (hcall : ∀ l, (callIter l).Perm l) :
    (callgraphData pp fp content depIter callIter now).1.is_static = true ∧
    ((callgraphData pp fp content depIter callIter now).1.external_calls).Perm
      (extract_dependencies content (detect_language_by_extension fp)) ∧
    (callgraphData pp fp content depIter callIter now).1.external_calls.Nodup ∧
    (callgraphData pp fp content depIter callIter now).1.call_count =
      (extract_function_calls content (detect_language_by_extension fp)).length ∧
    (callgraphData pp fp content depIter callIter now).2.content =
      callgraphContent
        (depIter (extract_dependencies content (detect_language_by_extension fp)))
        (callIter (extract_function_calls content (detect_language_by_extension fp))) ∧
    extract_dependencies "use std::io;" "rust" = ["std::io"] ∧
    extract_dependencies "import React from 'react';" "javascript" = ["react"] := by
  refine ⟨rfl, ?_, ?_, ?_, rfl, by decide, by decide⟩
  · exact hdep (extract_dependencies content (detect_language_by_extension fp))
  · exact ((hdep _).nodup_iff).mpr
      (extract_dependencies_nodup content (detect_language_by_extension fp))
  · show (callIter (extract_function_calls content
      (detect_language_by_extension fp))).length = _
    exact (hcall _).length_eq

/-- Witness for C7 at the identity iteration order. -/
theorem callgraph_contract_witness :
    (callgraphData "p" "f.rs" "use std::io;" id id 0).1.is_static = true ∧
    extract_dependencies "use std::io;" "rust" = ["std::io"] ∧
    extract_dependencies "import React from 'react';" "javascript" = ["react"] :=
  have h := callgraph_contract "p" "f.rs" "use std::io;" 0 id id
    (fun l => List.Perm.refl l) (fun l => List.Perm.refl l)
  ⟨h.1, h.2.2.2.2.2.1, h.2.2.2.2.2.2⟩

/-- Lexicographic comparison of character lists by code point — the order
Rust's `sort()` would use on these ASCII strings. -/
def lexLe : List Char → List Char → Bool
  | [], _ => true
  | _ :: _, [] => false
  | a :: as, b :: bs =>
    if a.toNat < b.toNat then true
    else if b.toNat < a.toNat then false
    else lexLe as bs

/-- String comparison by code points. -/
def strLeB (a b : String) : Bool :=
  lexLe a.data b.data

/-- C7 counterexample for the claim as stated: `external_calls` is not the
sorted import list.  `List.reverse` is an admissible `HashSet` iteration
order (a permutation); with two Rust imports `a`, `b` it yields
`["b", "a"]`, which is not in sorted order, while the deduplicated import
list `["a", "b"]` is. -/
theorem callgraph_sorted_counterexample :
    List.Perm (List.reverse ["a", "b"]) ["a", "b"] ∧
    extract_dependencies "use a;\nuse b;" "rust" = ["a", "b"] ∧
    (callgraphData "p" "f.rs" "use a;\nuse b;" List.reverse id 0).1.external_calls =
      ["b", "a"] ∧
    List.Sorted (fun a b : String => strLeB a b = true) ["a", "b"] ∧
    ¬ List.Sorted (fun a b : String => strLeB a b = true)
      ((callgraphData "p" "f.rs" "use a;\nuse b;" List.reverse id 0).1.external_calls) := by
  have heq : (callgraphData "p" "f.rs" "use a;\nuse b;" List.reverse id 0).1.external_calls =
      ["b", "a"] := by decide
  refine ⟨by decide, by decide, heq, by decide, ?_⟩
  intro hsort
  rw [heq] at hsort
  have hba : strLeB "b" "a" = true :=
    List.rel_of_sorted_cons hsort "a" (by simp)
  revert hba
  decide
